import Mathlib

/-!
# corobase: thread pool bitmap, transaction worker loop, version objects, TPC-C helpers

A shallow embedding of

* `src/dbcore/sm-thread.h`  (`thread::node_thread_pool`, `thread::get_thread`,
  `thread::put_thread`),
* `src/benchmarks/bench.cc` (`bench_worker::run`),
* `src/object.cc` (the two overloads of `object::create_tuple_object`), and
* `benchmarks/tpcc-common.h` (the order-id index, the random helpers and the
  customer-id loop of the order loader),

together with the properties stated about them.

Conventions.  A `uint64_t` is a natural number below `2 ^ 64`; every operation
that can leave that range is reduced modulo `2 ^ 64`.  A call whose behaviour
the C++ language leaves undefined yields `Result.undefined`, a failed
`ALWAYS_ASSERT`/`ASSERT` yields `Result.fatal`; for `object.cc` the outcome
`Ret.failed` also names the assertion that failed.
-/

namespace thread

/-- The all-ones word `~uint64_t{0}`. -/
def ALL_ONES : Nat := 2 ^ 64 - 1

/-- Bitwise complement of a 64-bit word, `~x`. -/
def not64 (x : Nat) : Nat := ALL_ONES ^^^ (x % 2 ^ 64)

/-- Trailing-zero scan over at most `fuel` bit positions, starting at the least
significant bit. -/
def ctzAux : Nat → Nat → Nat
  | 0, _ => 0
  | fuel + 1, x => if x % 2 = 1 then 0 else 1 + ctzAux fuel (x / 2)

/-- The compiler builtin `__builtin_ctzll`: the number of trailing zero bits of
a 64-bit word.  Its result is undefined for the argument `0`, which is `none`
here. -/
def ctzll (x : Nat) : Option Nat :=
  if x % 2 ^ 64 = 0 then none else some (ctzAux 64 (x % 2 ^ 64))

/-- Outcome of one call of a pool operation on a shared state of type `σ` (the
bitmap of one node, or the bitmaps of all nodes). `α` is what the call returns
on normal completion. -/
inductive Result (σ α : Type) where
  /-- the call invoked undefined behaviour -/
  | undefined : Result σ α
  /-- an assertion failed, the shared state being `state` at that point -/
  | fatal (state : σ) : Result σ α
  /-- normal return of `value`, the shared state now being `state` -/
  | ok (value : α) (state : σ) : Result σ α
  deriving DecidableEq, Repr

/-- `node_thread_pool::get_thread` run without contention (the
compare-and-swap succeeds on the first try), for a node whose capacity
`sysconf::max_threads_per_node` is `m`.  The returned value is `none` for
`nullptr` and `some pos` for `threads + pos`. -/
def node_thread_pool.get_thread (m : Nat) (bitmap : Nat) : Result Nat (Option Nat) :=
  let b := bitmap
  let xor_pos := b ^^^ ALL_ONES
  match ctzll xor_pos with
  | none => Result.undefined
  | some pos =>
    if pos = m then Result.ok none bitmap
    else
      let bitmap1 := (b ||| ((1 <<< pos) % 2 ^ 64))
      if pos < m then Result.ok (some pos) bitmap1 else Result.fatal bitmap1

/-- The fields of `sm_thread` that `put_thread` looks at: the slot's index in
its node's `threads` array (`t - threads`) and its `has_work` flag. -/
structure sm_thread where
  index : Nat
  has_work : Bool
  deriving DecidableEq, Repr

/-- `node_thread_pool::put_thread`: `ASSERT(not t->has_work)`, then
`__sync_fetch_and_and(&bitmap, ~uint64_t{1UL << (t - threads)})`.  A shift by
64 or more bits is undefined. -/
def node_thread_pool.put_thread (bitmap : Nat) (t : sm_thread) : Result Nat Unit :=
  if t.has_work then Result.fatal bitmap
  else if 64 ≤ t.index then Result.undefined
  else Result.ok () (bitmap &&& not64 ((1 <<< t.index) % 2 ^ 64))

/-- The loop of the node-agnostic `thread::get_thread()`: nodes are visited in
index order starting at `i`; `pools` holds the bitmaps of `thread_pools[i]`,
`thread_pools[i+1]`, ...  The first node that hands out a slot ends the scan;
the value is `some (node, pos)` for that slot and `none` for `nullptr`. -/
def get_thread_scan (m : Nat) : Nat → List Nat → Result (List Nat) (Option (Nat × Nat))
  | _, [] => Result.ok none []
  | i, b :: rest =>
    match node_thread_pool.get_thread m b with
    | Result.undefined => Result.undefined
    | Result.fatal b1 => Result.fatal (b1 :: rest)
    | Result.ok (some pos) b1 => Result.ok (some (i, pos)) (b1 :: rest)
    | Result.ok none b1 =>
      match get_thread_scan m (i + 1) rest with
      | Result.undefined => Result.undefined
      | Result.fatal r => Result.fatal (b1 :: r)
      | Result.ok v r => Result.ok v (b1 :: r)

/-- The node-agnostic `thread::get_thread()` over the bitmaps of
`thread_pools[0 .. numa_nodes-1]`. -/
def get_thread (m : Nat) (thread_pools : List Nat) :
    Result (List Nat) (Option (Nat × Nat)) :=
  get_thread_scan m 0 thread_pools

/-- A node is full when every one of its `m` slot positions is busy. -/
def is_full (m : Nat) (bitmap : Nat) : Prop := ∀ p, p < m → bitmap.testBit p = true

instance (m bitmap : Nat) : Decidable (is_full m bitmap) := by
  unfold is_full; infer_instance

/-- A call made on one node's pool. -/
inductive Call where
  | get : Call
  | put (pos : Nat) : Call
  deriving DecidableEq, Repr

/-- One node's pool as seen by its callers: the busy bitmap, and the slots
handed out and not yet given back, one entry per holder. -/
structure PoolState where
  bitmap : Nat
  held : List Nat
  deriving DecidableEq, Repr

/-- The pool of a freshly constructed node: `bitmap(0UL)`, nothing held. -/
def PoolState.init : PoolState := ⟨0, []⟩

/-- One call taking effect atomically.  A `get` hands the returned slot to the
caller; a `put` is only made on a slot that is held and has no pending work.
`none` when the call has no defined effect (undefined behaviour, failed
assertion, or a `put` of a slot nobody holds). -/
def PoolState.step (m : Nat) (s : PoolState) : Call → Option PoolState
  | Call.get =>
    match node_thread_pool.get_thread m s.bitmap with
    | Result.ok (some pos) b => some ⟨b, pos :: s.held⟩
    | Result.ok none b => some ⟨b, s.held⟩
    | _ => none
  | Call.put pos =>
    if pos ∈ s.held then
      match node_thread_pool.put_thread s.bitmap ⟨pos, false⟩ with
      | Result.ok () b => some ⟨b, s.held.erase pos⟩
      | _ => none
    else none

/-- A sequence of calls, each taking effect atomically, in order. -/
def PoolState.run (m : Nat) : List Call → PoolState → Option PoolState
  | [], s => some s
  | c :: cs, s =>
    match PoolState.step m s c with
    | some s1 => PoolState.run m cs s1
    | none => none

/-- The bookkeeping invariant of one node's pool: the bitmap is a 64-bit word,
no slot is held twice, and the held slots are exactly the set bits. -/
def PoolState.consistent (s : PoolState) : Prop :=
  s.bitmap < 2 ^ 64 ∧ s.held.Nodup ∧ ∀ p, p ∈ s.held ↔ s.bitmap.testBit p = true

end thread


namespace bench

/-- The return code `rc_t` of a transaction function: its `_val` field. -/
structure rc_t where
  _val : Nat
  deriving DecidableEq, Repr

/-- Modelled from the spec: the header `dbcore/sm-rc.h` is not among the
sources.  The six abort codes named by the `switch` of `bench_worker::run` and
the two predicates it calls are taken as parameters; the spec says only that a
transaction function commits or aborts "with one of the six classified
causes". -/
structure sm_rc where
  RC_ABORT_SERIAL : Nat
  RC_ABORT_SI_CONFLICT : Nat
  RC_ABORT_RW_CONFLICT : Nat
  RC_ABORT_INTERNAL : Nat
  RC_ABORT_PHANTOM : Nat
  RC_ABORT_USER : Nat
  rc_is_abort : rc_t → Bool
  rc_is_user_abort : rc_t → Bool

/-- The case labels of the `switch`, in the order they are written. -/
def sm_rc.abort_codes (rc : sm_rc) : List Nat :=
  [rc.RC_ABORT_SERIAL, rc.RC_ABORT_SI_CONFLICT, rc.RC_ABORT_RW_CONFLICT,
   rc.RC_ABORT_INTERNAL, rc.RC_ABORT_PHANTOM, rc.RC_ABORT_USER]

/-- The global flags read by the attempt body (`int`s tested for non-zero). -/
structure config where
  retry_aborted_transaction : Int
  backoff_aborted_transaction : Int
  deriving DecidableEq, Repr

/-- Modelled from the spec: `bench.h` is not among the sources.  These are the
members of `bench_worker` that `run` reads or writes; `seed` is the seed of
the generator `r` (what `r.get_seed()` returns and `r.set_seed` overwrites),
`txn_counts[i]` is the (commits, aborts) pair of stage `i`. -/
structure bench_worker where
  seed : Nat
  ntxn_commits : Nat
  ntxn_aborts : Nat
  ntxn_serial_aborts : Nat
  ntxn_si_aborts : Nat
  ntxn_rw_aborts : Nat
  ntxn_int_aborts : Nat
  ntxn_phantom_aborts : Nat
  ntxn_user_aborts : Nat
  latency_numer_us : Nat
  backoff_shifts : Nat
  txn_counts : List (Nat × Nat)
  deriving DecidableEq, Repr

/-- Modelled from the spec: `inc_ntxn_serial_aborts()` of `bench.h`, "increment
the matching counter". -/
def bench_worker.inc_ntxn_serial_aborts (w : bench_worker) : bench_worker :=
  { w with ntxn_serial_aborts := w.ntxn_serial_aborts + 1 }

/-- Modelled from the spec: `inc_ntxn_si_aborts()` of `bench.h`. -/
def bench_worker.inc_ntxn_si_aborts (w : bench_worker) : bench_worker :=
  { w with ntxn_si_aborts := w.ntxn_si_aborts + 1 }

/-- Modelled from the spec: `inc_ntxn_rw_aborts()` of `bench.h`. -/
def bench_worker.inc_ntxn_rw_aborts (w : bench_worker) : bench_worker :=
  { w with ntxn_rw_aborts := w.ntxn_rw_aborts + 1 }

/-- Modelled from the spec: `inc_ntxn_int_aborts()` of `bench.h`. -/
def bench_worker.inc_ntxn_int_aborts (w : bench_worker) : bench_worker :=
  { w with ntxn_int_aborts := w.ntxn_int_aborts + 1 }

/-- Modelled from the spec: `inc_ntxn_phantom_aborts()` of `bench.h`. -/
def bench_worker.inc_ntxn_phantom_aborts (w : bench_worker) : bench_worker :=
  { w with ntxn_phantom_aborts := w.ntxn_phantom_aborts + 1 }

/-- Modelled from the spec: `inc_ntxn_user_aborts()` of `bench.h`. -/
def bench_worker.inc_ntxn_user_aborts (w : bench_worker) : bench_worker :=
  { w with ntxn_user_aborts := w.ntxn_user_aborts + 1 }

/-- The six per-cause abort counters, in the order of the `switch`. -/
def bench_worker.cause_counters (w : bench_worker) : List Nat :=
  [w.ntxn_serial_aborts, w.ntxn_si_aborts, w.ntxn_rw_aborts,
   w.ntxn_int_aborts, w.ntxn_phantom_aborts, w.ntxn_user_aborts]

/-- The `switch (ret._val)` of the abort branch; `none` is the `default:
ALWAYS_ASSERT(false)`. -/
def bench_worker.classify (rc : sm_rc) (w : bench_worker) (ret : rc_t) : Option bench_worker :=
  if ret._val = rc.RC_ABORT_SERIAL then some w.inc_ntxn_serial_aborts
  else if ret._val = rc.RC_ABORT_SI_CONFLICT then some w.inc_ntxn_si_aborts
  else if ret._val = rc.RC_ABORT_RW_CONFLICT then some w.inc_ntxn_rw_aborts
  else if ret._val = rc.RC_ABORT_INTERNAL then some w.inc_ntxn_int_aborts
  else if ret._val = rc.RC_ABORT_PHANTOM then some w.inc_ntxn_phantom_aborts
  else if ret._val = rc.RC_ABORT_USER then some w.inc_ntxn_user_aborts
  else none

/-- What one pass through the attempt body observes from outside the worker:
the code returned by `workload[i].fn(this)`, the generator seed the function
leaves behind, the time `t.lap()` reports, and the value of the volatile
`running` flag when the retry condition reads it. -/
structure txn_call where
  ret : rc_t
  seed : Nat
  lap : Nat
  running : Bool
  deriving DecidableEq, Repr

/-- How one pass through the attempt body (from the label `retry:`) ends. -/
inductive Outcome where
  /-- `default: ALWAYS_ASSERT(false)` -/
  | fatal (w : bench_worker) : Outcome
  /-- the `break` was reached -/
  | done (w : bench_worker) : Outcome
  /-- `goto retry` was reached, after `spins` iterations of `nop_pause()` -/
  | retry (w : bench_worker) (spins : Nat) : Outcome
  deriving DecidableEq, Repr

/-- Whether the pass ended in `goto retry`. -/
def Outcome.is_retry : Outcome → Bool
  | Outcome.retry _ _ => true
  | _ => false

/-- The worker as the pass leaves it. -/
def Outcome.worker : Outcome → bench_worker
  | Outcome.fatal w => w
  | Outcome.done w => w
  | Outcome.retry w _ => w

/-- `txn_counts[i].first++`. -/
def bump_first (counts : List (Nat × Nat)) (i : Nat) : List (Nat × Nat) :=
  counts.set i ((counts.getD i (0, 0)).1 + 1, (counts.getD i (0, 0)).2)

/-- `txn_counts[i].second++`. -/
def bump_second (counts : List (Nat × Nat)) (i : Nat) : List (Nat × Nat) :=
  counts.set i ((counts.getD i (0, 0)).1, (counts.getD i (0, 0)).2 + 1)

/-- The backoff block: `if (backoff_shifts < 63) backoff_shifts++;
uint64_t spins = 1UL << backoff_shifts; spins *= 100;`.  Returns the new
counter and the number of spin iterations (64-bit arithmetic). -/
def backoff (backoff_shifts : Nat) : Nat × Nat :=
  let shifts := if backoff_shifts < 63 then backoff_shifts + 1 else backoff_shifts
  let spins := (1 <<< shifts) % 2 ^ 64
  (shifts, (spins * 100) % 2 ^ 64)

/-- One pass through the body of `bench_worker::run` from the label `retry:`
to the `break` or the `goto retry`, for stage `i`. -/
def bench_worker.attempt (rc : sm_rc) (cfg : config) (w : bench_worker) (i : Nat)
    (c : txn_call) : Outcome :=
  let old_seed := w.seed
  let w1 := { w with seed := c.seed }
  if !rc.rc_is_abort c.ret then
    Outcome.done { w1 with
      ntxn_commits := w1.ntxn_commits + 1
      txn_counts := bump_first w1.txn_counts i
      latency_numer_us := w1.latency_numer_us + c.lap
      backoff_shifts := w1.backoff_shifts >>> 1 }
  else
    let w2 := { w1 with
      ntxn_aborts := w1.ntxn_aborts + 1
      txn_counts := bump_second w1.txn_counts i }
    match bench_worker.classify rc w2 c.ret with
    | none => Outcome.fatal w2
    | some w3 =>
      if cfg.retry_aborted_transaction ≠ 0 ∧ rc.rc_is_user_abort c.ret = false
          ∧ c.running = true then
        if cfg.backoff_aborted_transaction ≠ 0 then
          let bs := backoff w3.backoff_shifts
          Outcome.retry { w3 with backoff_shifts := bs.1, seed := old_seed } bs.2
        else
          Outcome.retry { w3 with seed := old_seed } 0
      else Outcome.done w3

/-- How far the retry loop of one stage got on a given supply of calls. -/
inductive Status where
  /-- an assertion failed -/
  | fatal (w : bench_worker) : Status
  /-- the `break` was reached -/
  | done (w : bench_worker) : Status
  /-- the supply of calls ran out on the way to the label `retry:` -/
  | pending (w : bench_worker) : Status
  deriving DecidableEq, Repr

/-- The `goto retry` loop for stage `i`: passes through the attempt body, one
per element of `calls`, until a pass ends in `break` or fails.  The first
component records, for every pass started, the stage index and the value
`old_seed` it read from the generator. -/
def bench_worker.run_stage (rc : sm_rc) (cfg : config) (i : Nat) :
    bench_worker → List txn_call → List (Nat × Nat) × Status
  | w, [] => ([], Status.pending w)
  | w, c :: calls =>
    match bench_worker.attempt rc cfg w i c with
    | Outcome.fatal w1 => ([(i, w.seed)], Status.fatal w1)
    | Outcome.done w1 => ([(i, w.seed)], Status.done w1)
    | Outcome.retry w1 _ =>
      ((i, w.seed) :: (bench_worker.run_stage rc cfg i w1 calls).1,
        (bench_worker.run_stage rc cfg i w1 calls).2)

/-- A sequence of passes through the attempt body, each on the stage given
with it; `none` once an assertion has failed. -/
def bench_worker.attempts (rc : sm_rc) (cfg : config) :
    bench_worker → List (Nat × txn_call) → Option bench_worker
  | w, [] => some w
  | w, (i, c) :: rest =>
    match bench_worker.attempt rc cfg w i c with
    | Outcome.fatal _ => none
    | Outcome.done w1 => bench_worker.attempts rc cfg w1 rest
    | Outcome.retry w1 _ => bench_worker.attempts rc cfg w1 rest

/-- The stage-selection `for` loop of `bench_worker::run` with the attempt body
left out: `workload` lists the `frequency` of each stage, `d` is the draw, in
exact arithmetic.  The result lists the stage indices whose body is entered
(the body ends in `break`).  `fuel` bounds the iterations still to go. -/
def stage_loop (workload : List ℚ) : Nat → Nat → ℚ → List Nat
  | 0, _, _ => []
  | fuel + 1, i, d =>
    if i < workload.length then
      if i + 1 = workload.length ∨ d < workload.getD i 0 then [i]
      else stage_loop workload fuel (i + 1) (d - workload.getD i 0)
    else []

/-- The stages executed by one iteration of the `while` loop for draw `d`. -/
def executed_stages (workload : List ℚ) (d : ℚ) : List Nat :=
  stage_loop workload workload.length 0 d

/-- A sample choice of the `sm-rc.h` parameters, for evaluating the worker loop
on concrete inputs: six distinct abort codes, every code from 4 up counts as
an abort, and a user abort is the code `RC_ABORT_USER`. -/
def sample_rc : sm_rc :=
  { RC_ABORT_SERIAL := 4, RC_ABORT_SI_CONFLICT := 8, RC_ABORT_RW_CONFLICT := 16,
    RC_ABORT_INTERNAL := 32, RC_ABORT_PHANTOM := 64, RC_ABORT_USER := 128,
    rc_is_abort := fun ret => decide (4 ≤ ret._val),
    rc_is_user_abort := fun ret => decide (ret._val = 128) }

/-- A worker with generator seed `seed`, all counters zero and `stages` stage
slots in `txn_counts`. -/
def fresh_worker (seed stages : Nat) : bench_worker :=
  { seed := seed, ntxn_commits := 0, ntxn_aborts := 0, ntxn_serial_aborts := 0,
    ntxn_si_aborts := 0, ntxn_rw_aborts := 0, ntxn_int_aborts := 0,
    ntxn_phantom_aborts := 0, ntxn_user_aborts := 0, latency_numer_us := 0,
    backoff_shifts := 0, txn_counts := List.replicate stages (0, 0) }

/-- The worker that `fresh_worker 5 3` becomes after a serialization abort and
a commit on stage 0 and a user abort on stage 2. -/
def sample_after : bench_worker :=
  { seed := 13, ntxn_commits := 1, ntxn_aborts := 2, ntxn_serial_aborts := 1,
    ntxn_si_aborts := 0, ntxn_rw_aborts := 0, ntxn_int_aborts := 0,
    ntxn_phantom_aborts := 0, ntxn_user_aborts := 1, latency_numer_us := 3,
    backoff_shifts := 0, txn_counts := [(1, 1), (0, 0), (0, 1)] }

/-- Cumulative weight of stages `0 .. i`. -/
def cumulative (workload : List ℚ) (i : Nat) : ℚ := (workload.take (i + 1)).sum

/-- The number of `nop_pause()` iterations spun before the `goto retry`, when
the pass ended in one. -/
def Outcome.spins : Outcome → Nat
  | Outcome.retry _ spins => spins
  | _ => 0

/-- The workers at the start of each pass of the `goto retry` loop for stage
`i` (the companion of `run_stage`, which records stage index and seed). -/
def bench_worker.pass_starts (rc : sm_rc) (cfg : config) (i : Nat) :
    bench_worker → List txn_call → List bench_worker
  | _, [] => []
  | w, c :: calls =>
    match bench_worker.attempt rc cfg w i c with
    | Outcome.retry w1 _ => w :: bench_worker.pass_starts rc cfg i w1 calls
    | _ => [w]

/-- Modelled from the spec: the run-mode globals read by the `while` condition
(`run_mode`, `ops_per_worker`) and the constant `RUNMODE_OPS` of `bench.h`,
which is not among the sources ("fixed-operation-count mode"). -/
structure run_params where
  run_mode : Int
  RUNMODE_OPS : Int
  ops_per_worker : Nat
  deriving DecidableEq, Repr

/-- What one evaluation of the `while` condition, and the iteration it admits,
take from outside the worker: the value of the volatile `running` read by the
condition, the draw `r.next_uniform()` with the seed it leaves, and the calls
made by the retry loop of the selected stage. -/
structure iteration where
  running : Bool
  d : ℚ
  seed : Nat
  calls : List txn_call

/-- How far the `while` loop got on a given supply of iterations. -/
inductive LoopStatus where
  /-- the condition was false; `running` is the flag value it read -/
  | exited (w : bench_worker) (running : Bool) : LoopStatus
  /-- an assertion failed -/
  | fatal (w : bench_worker) : LoopStatus
  /-- the supply ran out with the loop still going -/
  | pending (w : bench_worker) : LoopStatus

/-- The worker a loop status carries. -/
def LoopStatus.worker : LoopStatus → bench_worker
  | LoopStatus.exited w _ => w
  | LoopStatus.fatal w => w
  | LoopStatus.pending w => w

/-- The `while` loop of `bench_worker::run`, lines 131-177.  The first
component lists the worker at the start of every pass through the attempt
body, in order. -/
def bench_worker.run_loop (rc : sm_rc) (cfg : config) (p : run_params) (workload : List ℚ) :
    bench_worker → List iteration → List bench_worker × LoopStatus
  | w, [] => ([], LoopStatus.pending w)
  | w, it :: rest =>
    if it.running = true ∧ (p.run_mode ≠ p.RUNMODE_OPS ∨ w.ntxn_commits < p.ops_per_worker) then
      let w0 := { w with seed := it.seed }
      match executed_stages workload it.d with
      | [] => bench_worker.run_loop rc cfg p workload w0 rest
      | i :: _ =>
        match (bench_worker.run_stage rc cfg i w0 it.calls).2 with
        | Status.fatal w1 => (bench_worker.pass_starts rc cfg i w0 it.calls, LoopStatus.fatal w1)
        | Status.pending w1 =>
          (bench_worker.pass_starts rc cfg i w0 it.calls, LoopStatus.pending w1)
        | Status.done w1 =>
          (bench_worker.pass_starts rc cfg i w0 it.calls ++
              (bench_worker.run_loop rc cfg p workload w1 rest).1,
            (bench_worker.run_loop rc cfg p workload w1 rest).2)
    else ([], LoopStatus.exited w it.running)

/-- A sample supply of iterations for a two-stage workload: an aborted and
retried stage-0 transaction that then commits, a stage-1 commit, and a third
evaluation of the loop condition. -/
def sample_iterations : List iteration :=
  [⟨true, 1/4, 6, [⟨⟨4⟩, 7, 1, true⟩, ⟨⟨1⟩, 8, 2, true⟩]⟩,
   ⟨true, 3/4, 9, [⟨⟨1⟩, 10, 3, true⟩]⟩,
   ⟨true, 0, 11, []⟩]

end bench

namespace obj

/-- Modelled from the spec: `fat_ptr`, the "Encoded Reference" (its header is
not among the sources): an address or log offset, a size-class code, and the
flag bits that carry the storage-location tag (`0` for in-memory). -/
structure fat_ptr where
  offset : Nat
  size_code : Nat
  flags : Nat
  deriving DecidableEq, Repr

/-- Modelled from the spec: `fat_ptr::make(ptr_or_offset, size_code, flags)`. -/
def fat_ptr.make (offset size_code flags : Nat) : fat_ptr := ⟨offset, size_code, flags⟩

/-- The null reference `NULL_PTR`. -/
def NULL_PTR : fat_ptr := ⟨0, 0, 0⟩

/-- Modelled from the spec: what `object.cc` uses from headers that are not
among the sources, taken as parameters: the three `sizeof`s, the size-class
coding, the storage tags, `fat_ptr::asi_type()` as a function of the flag
bits, `varstr::size()` as a function of the bytes the `varstr` header is read
from, and whether `ASSERT` is compiled in. -/
structure layout where
  sizeof_object : Nat
  sizeof_dbtuple : Nat
  sizeof_varstr : Nat
  encode_size_aligned : Nat → Nat
  decode_size_aligned : Nat → Nat
  INVALID_SIZE_CODE : Nat
  ASI_LOG : Nat
  ASI_LOG_FLAG : Nat
  asi_type : Nat → Nat
  varstr_size : List Nat → Nat
  check_asserts : Bool

/-- A non-null `const varstr *`: the address it holds and what `size()` returns
for the value it points to. -/
structure varstr where
  addr : Nat
  size : Nat
  deriving DecidableEq, Repr

/-- Modelled from the spec: `dbtuple`, the "inline tuple payload record {byte
length, raw bytes, dirty/pending-write marker}", with the `pvalue` pointer
that `object.cc` assigns (`none` is `NULL`).  `payload` holds the bytes this
code has put at `get_value_start()`. -/
structure dbtuple where
  size : Nat
  pvalue : Option Nat
  write_marked : Bool
  payload : List Nat
  deriving DecidableEq, Repr

/-- Modelled from the spec: the constructor `dbtuple(size)`: the given length,
no value pointer, not marked. -/
def dbtuple.new (size : Nat) : dbtuple := ⟨size, none, false, []⟩

/-- Modelled from the spec: `dbtuple::do_write()`, "marks it pending-write". -/
def dbtuple.do_write (t : dbtuple) : dbtuple := { t with write_marked := true }

/-- Modelled from the spec: the version header `object`: allocation epoch,
commit stamp `_clsn`, reference `_next` to the prior version, and the inline
tuple. -/
structure object where
  _alloc_epoch : Nat
  _clsn : fat_ptr
  _next : fat_ptr
  tuple : dbtuple
  deriving DecidableEq, Repr

/-- The memory block `MM::allocate` hands back: its address, and the value the
`_alloc_epoch` field shows once `object()` has been constructed in it (the
epoch a reused block carried before). -/
structure block where
  addr : Nat
  prev_epoch : Nat
  deriving DecidableEq, Repr

/-- The assertions of `object.cc`, by what they check. -/
inductive Check where
  | reuse_epoch
  | pvalue_null
  | size_code
  | asi_log
  | logmgr
  | length
  | clsn_asi
  deriving DecidableEq, Repr

/-- How a call of `create_tuple_object` ends. -/
inductive Ret (α : Type) where
  /-- an `ASSERT` failed -/
  | failed (c : Check) : Ret α
  /-- undefined behaviour (null dereference, read past the payload area) -/
  | undefined : Ret α
  /-- still in the busy-wait for the flush position -/
  | spinning : Ret α
  /-- normal return -/
  | ok (value : α) : Ret α
  deriving DecidableEq, Repr

/-- What a returning call has done: the one request it made to `MM::allocate`
(size and epoch), the object it built in the block, and the reference it
returns. -/
structure Created where
  alloc_sz : Nat
  alloc_epoch : Nat
  obj : object
  ret : fat_ptr
  deriving DecidableEq, Repr

/-- The `uint32_t data_sz` of the first overload: `tuple_value ?
tuple_value->size() : 0`. -/
def value_data_sz (tuple_value : Option varstr) : Nat :=
  match tuple_value with
  | some v => v.size % 2 ^ 32
  | none => 0

/-- `object::create_tuple_object(const varstr *tuple_value, bool do_write,
epoch_num epoch)`, lines 5-31; `blk` is the block `MM::allocate(alloc_sz,
epoch)` returns.  `epoch - 4` is 64-bit unsigned. -/
def object.create_tuple_object (env : layout) (tuple_value : Option varstr) (do_write : Bool)
    (epoch : Nat) (blk : block) : Ret Created :=
  let do_write1 := if tuple_value.isSome then true else do_write
  let data_sz := value_data_sz tuple_value
  let alloc_sz := env.sizeof_dbtuple + env.sizeof_object + data_sz
  let obj0 : object := ⟨blk.prev_epoch, NULL_PTR, NULL_PTR, dbtuple.new 0⟩
  if env.check_asserts = true ∧ ¬ obj0._alloc_epoch ≤ (epoch + 2 ^ 64 - 4) % 2 ^ 64 then
    Ret.failed Check.reuse_epoch
  else
    let obj1 := { obj0 with _alloc_epoch := epoch }
    let tuple0 := dbtuple.new data_sz
    if env.check_asserts = true ∧ tuple0.pvalue ≠ none then Ret.failed Check.pvalue_null
    else
      let tuple1 := { tuple0 with pvalue := tuple_value.map varstr.addr }
      let tuple2 := if do_write1 then tuple1.do_write else tuple1
      let size_code := env.encode_size_aligned alloc_sz
      if env.check_asserts = true ∧ size_code = env.INVALID_SIZE_CODE then
        Ret.failed Check.size_code
      else
        Ret.ok ⟨alloc_sz, epoch, { obj1 with tuple := tuple2 },
          fat_ptr.make blk.addr size_code 0⟩

/-- The `uint32_t data_sz` of the second overload:
`decode_size_aligned(ptr.size_code())`. -/
def log_data_sz (env : layout) (ptr : fat_ptr) : Nat :=
  env.decode_size_aligned ptr.size_code % 2 ^ 32

/-- The `memmove(start, start + sizeof(varstr), size)` over a payload area of
`data_sz` bytes holding `loaded`; `none` when the source range runs past the
area. -/
def strip_varstr (env : layout) (data_sz : Nat) (loaded : List Nat) (size : Nat) :
    Option (List Nat) :=
  if env.sizeof_varstr + size ≤ data_sz then
    some ((loaded.drop env.sizeof_varstr).take size ++ loaded.drop size)
  else none

/-- `object::create_tuple_object(fat_ptr ptr, fat_ptr nxt, epoch_num epoch,
sm_log_recover_mgr *lm)`, lines 37-75.  `lm` and `logmgr` are the two log
sources (`none` is a null pointer), each giving the bytes `load_object` copies
for a length and a reference; `is_backup_srv` is `config::is_backup_srv()` and
`flushed` the successive values of `logmgr->durable_flushed_lsn().offset()`
seen by the busy-wait; `blk` is the block `MM::allocate(sz, 0)` returns. -/
def object.create_tuple_object_from_log (env : layout) (ptr nxt : fat_ptr) (epoch : Nat)
    (lm logmgr : Option (Nat → fat_ptr → List Nat)) (is_backup_srv : Bool)
    (flushed : List Nat) (blk : block) : Ret Created :=
  if env.check_asserts = true ∧ env.asi_type ptr.flags ≠ env.ASI_LOG then
    Ret.failed Check.asi_log
  else
    let data_sz := log_data_sz env ptr
    let sz := data_sz + env.sizeof_object + env.sizeof_dbtuple
    let obj0 : object := ⟨epoch, NULL_PTR, nxt, dbtuple.new 0⟩
    if is_backup_srv = true ∧ logmgr.isNone = true then Ret.undefined
    else if is_backup_srv = true ∧ flushed.all (fun f => decide (ptr.offset > f)) = true then
      Ret.spinning
    else
      let tuple0 := dbtuple.new 0
      match (match lm with
        | some l => Ret.ok (l data_sz ptr)
        | none =>
          match logmgr with
          | some l => Ret.ok (l data_sz ptr)
          | none => if env.check_asserts = true then Ret.failed Check.logmgr
                    else Ret.undefined) with
      | Ret.failed c => Ret.failed c
      | Ret.undefined => Ret.undefined
      | Ret.spinning => Ret.spinning
      | Ret.ok loaded =>
        let size := env.varstr_size loaded
        if env.check_asserts = true ∧ ¬ size < data_sz then Ret.failed Check.length
        else
          match strip_varstr env data_sz loaded size with
          | none => Ret.undefined
          | some payload =>
            let tuple1 := { tuple0 with size := size, payload := payload }
            let clsn := fat_ptr.make ptr.offset (env.encode_size_aligned sz) env.ASI_LOG_FLAG
            if env.check_asserts = true ∧ env.asi_type clsn.flags ≠ env.ASI_LOG then
              Ret.failed Check.clsn_asi
            else
              Ret.ok ⟨sz, 0, { obj0 with _clsn := clsn, tuple := tuple1 },
                fat_ptr.make blk.addr (env.encode_size_aligned sz) 0⟩

/-- The two checks of the first overload that can fail hold, or `ASSERT` is
compiled out: the reuse check `obj->_alloc_epoch <= epoch - 4` and the
size-code check. -/
def object.value_checks (env : layout) (tuple_value : Option varstr) (epoch : Nat)
    (blk : block) : Prop :=
  env.check_asserts = true →
    blk.prev_epoch ≤ (epoch + 2 ^ 64 - 4) % 2 ^ 64 ∧
    env.encode_size_aligned (env.sizeof_dbtuple + env.sizeof_object + value_data_sz tuple_value)
      ≠ env.INVALID_SIZE_CODE

instance (env : layout) (tuple_value : Option varstr) (epoch : Nat) (blk : block) :
    Decidable (object.value_checks env tuple_value epoch blk) := by
  unfold object.value_checks; infer_instance

/-- A sample layout for evaluating `object.cc` on concrete inputs: 16-byte
size classes, an 8-byte `varstr` header whose first byte is the length, and
`ASSERT` compiled in. -/
def sample_layout : layout :=
  { sizeof_object := 32, sizeof_dbtuple := 24, sizeof_varstr := 8,
    encode_size_aligned := fun n => if n ≤ 254 * 16 then (n + 15) / 16 else 255,
    decode_size_aligned := fun c => c * 16,
    INVALID_SIZE_CODE := 255, ASI_LOG := 1, ASI_LOG_FLAG := 1,
    asi_type := fun flags => flags,
    varstr_size := fun bytes => bytes.headD 0,
    check_asserts := true }

/-- The log source the second overload reads from: `lm` when given, else the
global `logmgr`. -/
def log_source (lm logmgr : Option (Nat → fat_ptr → List Nat)) :
    Option (Nat → fat_ptr → List Nat) :=
  match lm with
  | some l => some l
  | none => logmgr

/-- The second overload gets as far as its length check: the reference is
LOG-tagged (or `ASSERT` is compiled out), and on a backup server the global
log manager exists and the flush position catches up with the reference. -/
def object.reaches_length_check (env : layout) (ptr : fat_ptr)
    (logmgr : Option (Nat → fat_ptr → List Nat)) (is_backup_srv : Bool)
    (flushed : List Nat) : Prop :=
  (env.check_asserts = true → env.asi_type ptr.flags = env.ASI_LOG) ∧
  (is_backup_srv = true →
    logmgr.isNone = false ∧ flushed.all (fun f => decide (ptr.offset > f)) = false)

/-- A sample log source: whatever the reference, the record is an 8-byte
header declaring 5 payload bytes, the bytes 10..14, and 3 bytes of padding. -/
def sample_log : Nat → fat_ptr → List Nat :=
  fun _ _ => [5, 0, 0, 0, 0, 0, 0, 0, 10, 11, 12, 13, 14, 0, 0, 0]

/-- A sample log source whose record declares an inner length of 16, the whole
size of a 16-byte payload area. -/
def sample_log_full : Nat → fat_ptr → List Nat :=
  fun _ _ => [16, 0, 0, 0, 0, 0, 0, 0, 10, 11, 12, 13, 14, 15, 16, 17]

/-- A sample log source whose record declares an inner length of 15 in a
16-byte payload area: it passes the length check, but with the 8-byte header
in front only 8 of its bytes were loaded. -/
def sample_log_long : Nat → fat_ptr → List Nat :=
  fun _ _ => [15, 0, 0, 0, 0, 0, 0, 0, 10, 11, 12, 13, 14, 15, 16, 17]

/-- Modelled from the spec: `encode_size_aligned`, whose header is not among
the sources.  The spec says that the size class is the byte count "rounded up
to a fixed alignment granularity" and that "a byte size that does not fit the
size-class table fails with an invalid size condition".  Here `granularity` is
that alignment and `classes` the number of size codes of the table; the code
of a size is the number of granules it rounds up to, and `none` stands for
`INVALID_SIZE_CODE`. -/
def encode_size_aligned (granularity classes : Nat) (sz : Nat) : Option Nat :=
  if (sz + granularity - 1) / granularity < classes then
    some ((sz + granularity - 1) / granularity)
  else none

/-- Modelled from the spec: `decode_size_aligned`, the size a size code stands
for: "decoding the size-class always yields a value ≥ the original requested
byte count, rounded up to a fixed alignment granularity". -/
def decode_size_aligned (granularity : Nat) (code : Nat) : Nat := code * granularity

end obj

namespace tpcc

/-- `NumItems()`. -/
def NumItems : Nat := 100000

/-- `NumDistrictsPerWarehouse()`. -/
def NumDistrictsPerWarehouse : Nat := 10

/-- `NumCustomersPerDistrict()`. -/
def NumCustomersPerDistrict : Nat := 3000

/-- How a call of one of the helpers of `tpcc-common.h` ends. -/
inductive Res (α : Type) where
  /-- undefined behaviour: signed overflow, division by zero, access outside an
  array or buffer -/
  | undefined : Res α
  /-- an `ASSERT` failed -/
  | failed : Res α
  /-- normal return -/
  | ok (value : α) : Res α
  deriving DecidableEq, Repr

/-- `NewOrderIdHolder(warehouse, district)`, lines 62-69, as the index `idx` of
the counter it returns in `g_district_ids`; `NumWarehouses` is the value of
`NumWarehouses()`.  The arguments are `unsigned`, the product and sum are
formed in `size_t`, and the result is stored in a `const unsigned`. -/
def NewOrderIdHolder (NumWarehouses : Nat) (warehouse district : Nat) : Res Nat :=
  if ¬ (warehouse ≥ 1 ∧ warehouse ≤ NumWarehouses) then Res.failed
  else if ¬ (district ≥ 1 ∧ district ≤ NumDistrictsPerWarehouse) then Res.failed
  else
    Res.ok ((((warehouse + 2 ^ 32 - 1) % 2 ^ 32 * NumDistrictsPerWarehouse +
      (district + 2 ^ 32 - 1) % 2 ^ 32) % 2 ^ 64) % 2 ^ 32)

/-- Whether a value is representable as an `int`. -/
def fits_int (x : Int) : Prop := -2 ^ 31 ≤ x ∧ x < 2 ^ 31

instance (x : Int) : Decidable (fits_int x) := by
  unfold fits_int; infer_instance

/-- `CheckBetweenInclusive(v, lower, upper)`, lines 220-227. -/
def CheckBetweenInclusive (v lower upper : Int) : Res Int :=
  if ¬ v ≥ lower then Res.failed
  else if ¬ v ≤ upper then Res.failed
  else Res.ok v

/-- `RandomNumber(r, min, max)`, lines 229-233.  The span `max - min + 1` is
formed in `int` before it is multiplied with the `double` `r.next_uniform()`,
so an overflow in it is undefined; `draw` is the value the conversion
`(int)(r.next_uniform() * (max - min + 1) + min)` then yields, undefined when
it is not representable as `int`. -/
def RandomNumber (draw min max : Int) : Res Int :=
  if ¬ fits_int (max - min) ∨ ¬ fits_int (max - min + 1) then Res.undefined
  else if ¬ fits_int draw then Res.undefined
  else CheckBetweenInclusive draw min max

/-- `NonUniformRandom(r, A, C, min, max)`, lines 235-240, in `int` arithmetic;
`draw_a` and `draw_b` are the values drawn by the two calls `RandomNumber(r, 0,
A)` and `RandomNumber(r, min, max)`, each of which forms its own span (`A - 0 +
1` and `max - min + 1`) in `int`. -/
def NonUniformRandom (draw_a draw_b A C min max : Int) : Res Int :=
  match RandomNumber draw_a 0 A, RandomNumber draw_b min max with
  | Res.ok a, Res.ok b =>
    if ¬ fits_int (Int.lor a b + C) then Res.undefined
    else if ¬ fits_int (max - min) ∨ ¬ fits_int (max - min + 1) then Res.undefined
    else if max - min + 1 = 0 ∨ (Int.lor a b + C = -2 ^ 31 ∧ max - min + 1 = -1) then
      Res.undefined
    else if ¬ fits_int (Int.tmod (Int.lor a b + C) (max - min + 1) + min) then Res.undefined
    else Res.ok (Int.tmod (Int.lor a b + C) (max - min + 1) + min)
  | Res.undefined, _ => Res.undefined
  | _, Res.undefined => Res.undefined
  | _, _ => Res.failed

/-- `GetCustomerId(r)`, lines 249-253. -/
def GetCustomerId (draw_a draw_b : Int) : Res Int :=
  match NonUniformRandom draw_a draw_b 1023 259 1 NumCustomersPerDistrict with
  | Res.ok v => CheckBetweenInclusive v 1 NumCustomersPerDistrict
  | Res.undefined => Res.undefined
  | Res.failed => Res.failed

/-- `GetItemId(r)`, lines 242-247; `g_uniform_item_dist` selects the uniform
draw `draw_u`. -/
def GetItemId (g_uniform_item_dist : Int) (draw_u draw_a draw_b : Int) : Res Int :=
  match (if g_uniform_item_dist ≠ 0 then RandomNumber draw_u 1 NumItems
         else NonUniformRandom draw_a draw_b 8191 7911 1 NumItems) with
  | Res.ok v => CheckBetweenInclusive v 1 NumItems
  | Res.undefined => Res.undefined
  | Res.failed => Res.failed

/-- `CustomerLastNameMaxSize`. -/
def CustomerLastNameMaxSize : Nat := 5 * 3

/-- `NameTokens[i]` for an `int` index; outside the array the access is
undefined.  `NameTokens` itself is defined outside the sources and is a
parameter. -/
def name_token (NameTokens : List (List Nat)) (i : Int) : Res (List Nat) :=
  if 0 ≤ i ∧ i.toNat < NameTokens.length then Res.ok (NameTokens.getD i.toNat [])
  else Res.undefined

/-- `memcpy(buf + at, src.data(), src.size())` into a buffer of `buf.length`
bytes; `none` when it would write past the end. -/
def memcpy_at (buf : List Nat) (pos : Nat) (src : List Nat) : Option (List Nat) :=
  if pos + src.length ≤ buf.length then
    some (buf.take pos ++ src ++ buf.drop (pos + src.length))
  else none

/-- `GetCustomerLastName(uint8_t *buf, int num)`, lines 260-275: the buffer
afterwards and the returned length. -/
def GetCustomerLastName_buf (NameTokens : List (List Nat)) (buf : List Nat) (num : Int) :
    Res (List Nat × Nat) :=
  match name_token NameTokens (Int.tdiv num 100),
        name_token NameTokens (Int.tmod (Int.tdiv num 10) 10),
        name_token NameTokens (Int.tmod num 10) with
  | Res.ok s0, Res.ok s1, Res.ok s2 =>
    match memcpy_at buf 0 s0 with
    | none => Res.undefined
    | some buf1 =>
      match memcpy_at buf1 s0.length s1 with
      | none => Res.undefined
      | some buf2 =>
        match memcpy_at buf2 (s0.length + s1.length) s2 with
        | none => Res.undefined
        | some buf3 => Res.ok (buf3, s0.length + s1.length + s2.length)
  | _, _, _ => Res.undefined

/-- `GetCustomerLastName(int num)`, lines 277-282. -/
def GetCustomerLastName (NameTokens : List (List Nat)) (num : Int) : Res (List Nat) :=
  match GetCustomerLastName_buf NameTokens (List.replicate CustomerLastNameMaxSize 0) num with
  | Res.ok (buf, n) => Res.ok (buf.take n ++ List.replicate (n - buf.length) 0)
  | Res.undefined => Res.undefined
  | Res.failed => Res.failed

/-- The ten syllables of the TPC-C last names, as character codes: a sample
value for `NameTokens`. -/
def sample_NameTokens : List (List Nat) :=
  ["BAR", "OUGHT", "ABLE", "PRI", "PRES", "ESE", "ANTI", "CALLY", "ATION", "EING"].map
    (fun s => s.toList.map Char.toNat)

/-- The customer-id generation loop of `tpcc_order_loader::load`, lines
868-875, for `n = NumCustomersPerDistrict()`; the first argument lists the
values `r.next()` yields from here on, `c_ids_s` is the set and `c_ids` the
vector.  `none` when the values run out with the loop still going. -/
def c_ids_loop (n : Nat) : List Nat → List Nat → List Nat → Option (List Nat)
  | [], _, c_ids => if c_ids.length ≠ n then none else some c_ids
  | r_next :: rest, c_ids_s, c_ids =>
    if c_ids.length ≠ n then
      if (r_next % n + 1) ∈ c_ids_s then c_ids_loop n rest c_ids_s c_ids
      else c_ids_loop n rest ((r_next % n + 1) :: c_ids_s) (c_ids ++ [r_next % n + 1])
    else some c_ids

/-- The `o_c_id` values of the orders generated for a district, lines 876-883:
order `c` (from 1) gets `c_ids[c - 1]`. -/
def order_customer_ids (n : Nat) (c_ids : List Nat) : List Nat :=
  (List.range n).map (fun c => c_ids.getD c 0)

end tpcc

/-! ## Theorems: the per-node thread pool -/

namespace thread

theorem ctzAux_eq (fuel : Nat) : ∀ (x p : Nat), p < fuel → x.testBit p = true →
    (∀ j, j < p → x.testBit j = false) → ctzAux fuel x = p := by
  induction fuel with
  | zero => intro x p hp; omega
  | succ n ih =>
    intro x p hp hset hlow
    cases p with
    | zero =>
      have h1 : x % 2 = 1 := by simpa [Nat.testBit_zero] using hset
      simp [ctzAux, h1]
    | succ q =>
      have h0 : x.testBit 0 = false := hlow 0 (Nat.succ_pos q)
      have h1 : ¬ x % 2 = 1 := by simpa [Nat.testBit_zero] using h0
      have hq : ctzAux n (x / 2) = q := by
        apply ih (x / 2) q (by omega)
        · rw [← Nat.testBit_succ]; exact hset
        · intro j hj
          rw [← Nat.testBit_succ]; exact hlow (j + 1) (by omega)
      simp [ctzAux, h1, hq]; omega

theorem testBit_xor_all_ones (b i : Nat) :
    (b ^^^ ALL_ONES).testBit i = (b.testBit i ^^ decide (i < 64)) := by
  unfold ALL_ONES
  rw [Nat.testBit_xor, Nat.testBit_two_pow_sub_one]

theorem xor_all_ones_lt (b : Nat) (hb : b < 2 ^ 64) : b ^^^ ALL_ONES < 2 ^ 64 :=
  Nat.xor_lt_two_pow hb (by decide)

theorem ctzll_xor_all_ones (b p : Nat) (hb : b < 2 ^ 64) (hp : p < 64)
    (hclear : b.testBit p = false) (hlow : ∀ j, j < p → b.testBit j = true) :
    ctzll (b ^^^ ALL_ONES) = some p := by
  have hlt := xor_all_ones_lt b hb
  have hmod : (b ^^^ ALL_ONES) % 2 ^ 64 = b ^^^ ALL_ONES := Nat.mod_eq_of_lt hlt
  have hset : (b ^^^ ALL_ONES).testBit p = true := by
    rw [testBit_xor_all_ones, hclear]; simp [hp]
  have hne : ¬ (b ^^^ ALL_ONES) = 0 := by
    intro h0; rw [h0] at hset; simp at hset
  unfold ctzll
  rw [hmod, if_neg hne]
  congr 1
  apply ctzAux_eq 64 _ p hp hset
  intro j hj
  rw [testBit_xor_all_ones, hlow j hj]; simp [Nat.lt_trans hj hp]

theorem one_shiftLeft_mod (p : Nat) (hp : p < 64) : (1 <<< p) % 2 ^ 64 = 2 ^ p := by
  rw [Nat.one_shiftLeft]
  exact Nat.mod_eq_of_lt (Nat.pow_lt_pow_right (by decide) hp)

theorem exists_lowest_zero (b q : Nat) (hqc : b.testBit q = false) :
    ∃ p, p ≤ q ∧ b.testBit p = false ∧ ∀ j, j < p → b.testBit j = true := by
  classical
  have hex : ∃ p, b.testBit p = false := ⟨q, hqc⟩
  refine ⟨Nat.find hex, Nat.find_min' hex hqc, Nat.find_spec hex, ?_⟩
  intro j hj
  have := Nat.find_min hex hj
  simpa using this

theorem get_thread_eq (m b p : Nat) (hb : b < 2 ^ 64) (hp64 : p < 64)
    (hclear : b.testBit p = false) (hlow : ∀ j, j < p → b.testBit j = true) :
    node_thread_pool.get_thread m b =
      if p = m then Result.ok none b
      else if p < m then Result.ok (some p) (b ||| 2 ^ p) else Result.fatal (b ||| 2 ^ p) := by
  unfold node_thread_pool.get_thread
  simp only [ctzll_xor_all_ones b p hb hp64 hclear hlow, one_shiftLeft_mod p hp64]

theorem get_thread_of_lowest_zero (m b p : Nat) (hb : b < 2 ^ 64) (hp64 : p < 64)
    (hpm : p < m) (hclear : b.testBit p = false)
    (hlow : ∀ j, j < p → b.testBit j = true) :
    node_thread_pool.get_thread m b = Result.ok (some p) (b ||| 2 ^ p) := by
  rw [get_thread_eq m b p hb hp64 hclear hlow, if_neg (by omega), if_pos hpm]

theorem exists_clear_of_ne_all_ones (b : Nat) (hb : b < 2 ^ 64) (hne : b ≠ ALL_ONES) :
    ∃ q, q < 64 ∧ b.testBit q = false := by
  by_contra hcon
  apply hne
  apply Nat.eq_of_testBit_eq
  intro i
  unfold ALL_ONES
  rw [Nat.testBit_two_pow_sub_one]
  by_cases hi : i < 64
  · have : b.testBit i = true := by
      by_contra h
      exact hcon ⟨i, hi, by simpa using h⟩
    simp [this, hi]
  · have hle : 2 ^ 64 ≤ 2 ^ i := Nat.pow_le_pow_right (by decide) (by omega)
    simp [hi, Nat.testBit_lt_two_pow (Nat.lt_of_lt_of_le hb hle)]

theorem get_thread_all_ones (m : Nat) :
    node_thread_pool.get_thread m ALL_ONES = Result.undefined := by
  unfold node_thread_pool.get_thread ctzll
  simp [ALL_ONES]

theorem or_two_pow_lt (b p : Nat) (hb : b < 2 ^ 64) (hp : p < 64) : b ||| 2 ^ p < 2 ^ 64 :=
  Nat.or_lt_two_pow hb (Nat.pow_lt_pow_right (by decide) hp)

/-- What a successful `get_thread` says about the bitmap it ran on. -/
theorem get_thread_ok_some (m b pos b1 : Nat) (hb : b < 2 ^ 64)
    (h : node_thread_pool.get_thread m b = Result.ok (some pos) b1) :
    pos < 64 ∧ pos < m ∧ b.testBit pos = false ∧ (∀ j, j < pos → b.testBit j = true) ∧
      b1 = b ||| 2 ^ pos := by
  by_cases hne : b = ALL_ONES
  · rw [hne, get_thread_all_ones] at h; cases h
  · obtain ⟨q, hq, hqc⟩ := exists_clear_of_ne_all_ones b hb hne
    obtain ⟨p, hpq, hclear, hlow⟩ := exists_lowest_zero b q hqc
    have hp64 : p < 64 := Nat.lt_of_le_of_lt hpq hq
    rw [get_thread_eq m b p hb hp64 hclear hlow] at h
    split at h
    · cases h
    · split at h
      · injection h with h1 h2
        injection h1 with h1
        subst h1
        exact ⟨hp64, by assumption, hclear, hlow, h2.symm⟩
      · cases h

/-- A `get_thread` that returns `nullptr` leaves the bitmap as it was. -/
theorem get_thread_ok_none (m b b1 : Nat)
    (h : node_thread_pool.get_thread m b = Result.ok none b1) : b1 = b := by
  unfold node_thread_pool.get_thread at h
  simp only at h
  split at h
  · cases h
  · split at h
    · injection h with _ h2; exact h2.symm
    · split at h <;> cases h

theorem testBit_lor_two_pow (b p i : Nat) :
    (b ||| 2 ^ p).testBit i = if i = p then true else b.testBit i := by
  rw [Nat.testBit_lor, Nat.testBit_two_pow]
  by_cases h : i = p
  · subst h; simp
  · have h2 : ¬ p = i := fun e => h e.symm
    simp [h, h2]

/-- C1. For every 64-bit bitmap `b` with a clear bit among the `m` slot
positions of its node, `node_thread_pool::get_thread` run without contention
returns the slot whose index `p` is the lowest-order zero bit of `b`, and the
bitmap afterwards is `b` with bit `p` set and every other bit unchanged. -/
theorem C1_get_thread_lowest_zero_bit (m b q : Nat) (hb : b < 2 ^ 64) (hm : m ≤ 64)
    (hq : q < m) (hqc : b.testBit q = false) :
    ∃ p, p < m ∧ b.testBit p = false ∧ (∀ j, j < p → b.testBit j = true) ∧
      node_thread_pool.get_thread m b = Result.ok (some p) (b ||| 2 ^ p) ∧
      ∀ i, (b ||| 2 ^ p).testBit i = if i = p then true else b.testBit i := by
  obtain ⟨p, hpq, hclear, hlow⟩ := exists_lowest_zero b q hqc
  have hpm : p < m := Nat.lt_of_le_of_lt hpq hq
  exact ⟨p, hpm, hclear, hlow,
    get_thread_of_lowest_zero m b p hb (Nat.lt_of_lt_of_le hpm hm) hpm hclear hlow,
    testBit_lor_two_pow b p⟩

theorem C1_get_thread_lowest_zero_bit_witness :
    ∃ p, p < 8 ∧ (11 : Nat).testBit p = false ∧ (∀ j, j < p → (11 : Nat).testBit j = true) ∧
      node_thread_pool.get_thread 8 11 = Result.ok (some p) (11 ||| 2 ^ p) ∧
      ∀ i, ((11 : Nat) ||| 2 ^ p).testBit i = if i = p then true else (11 : Nat).testBit i :=
  C1_get_thread_lowest_zero_bit 8 11 5 (by decide) (by decide) (by decide) (by decide)


theorem testBit_not64_two_pow (p i : Nat) (hp : p < 64) :
    (not64 (2 ^ p)).testBit i = (decide (i < 64) && !decide (i = p)) := by
  unfold not64 ALL_ONES
  rw [Nat.testBit_xor, Nat.testBit_two_pow_sub_one, Nat.testBit_mod_two_pow,
    Nat.testBit_two_pow]
  by_cases h64 : i < 64 <;> by_cases hip : i = p
  · subst hip; simp [h64]
  · have : ¬ p = i := fun e => hip e.symm
    simp [h64, hip, this]
  · subst hip; omega
  · simp [h64, hip]

theorem testBit_eq_false_of_ge (b i : Nat) (hb : b < 2 ^ 64) (hi : 64 ≤ i) :
    b.testBit i = false :=
  Nat.testBit_lt_two_pow (Nat.lt_of_lt_of_le hb (Nat.pow_le_pow_right (by decide) hi))

theorem put_thread_eq (b p : Nat) (hp : p < 64) :
    node_thread_pool.put_thread b ⟨p, false⟩ = Result.ok () (b &&& not64 (2 ^ p)) := by
  unfold node_thread_pool.put_thread
  rw [if_neg (by simp), if_neg (by simpa using hp)]
  simp only [one_shiftLeft_mod p hp]

theorem testBit_put (b p i : Nat) (hb : b < 2 ^ 64) (hp : p < 64) :
    (b &&& not64 (2 ^ p)).testBit i = if i = p then false else b.testBit i := by
  rw [Nat.testBit_land, testBit_not64_two_pow p i hp]
  by_cases hip : i = p
  · simp [hip]
  · by_cases h64 : i < 64
    · simp [hip, h64]
    · simp [hip, h64, testBit_eq_false_of_ge b i hb (by omega)]

/-- C4. For every 64-bit bitmap `b` and every slot with index `p < 64` that has
no pending work, `node_thread_pool::put_thread` leaves the bitmap equal to `b`
with bit `p` cleared and all other bits unchanged. -/
theorem C4_put_thread_clears_only_its_bit (b : Nat) (t : sm_thread) (hb : b < 2 ^ 64)
    (hp : t.index < 64) (hw : t.has_work = false) :
    ∃ b1, node_thread_pool.put_thread b t = Result.ok () b1 ∧ b1 < 2 ^ 64 ∧
      b1.testBit t.index = false ∧ ∀ i, i ≠ t.index → b1.testBit i = b.testBit i := by
  obtain ⟨p, w⟩ := t
  simp only at hp hw
  subst hw
  refine ⟨b &&& not64 (2 ^ p), put_thread_eq b p hp, ?_, ?_, ?_⟩
  · exact Nat.lt_of_le_of_lt Nat.and_le_left hb
  · rw [testBit_put b p p hb hp]; simp
  · intro i hi
    rw [testBit_put b p i hb hp]; simp [hi]

theorem C4_put_thread_clears_only_its_bit_witness :
    ∃ b1, node_thread_pool.put_thread 15 ⟨2, false⟩ = Result.ok () b1 ∧ b1 < 2 ^ 64 ∧
      b1.testBit 2 = false ∧ ∀ i, i ≠ 2 → b1.testBit i = (15 : Nat).testBit i :=
  C4_put_thread_clears_only_its_bit 15 ⟨2, false⟩ (by decide) (by decide) rfl


theorem consistent_init : PoolState.init.consistent := by
  refine ⟨by decide, List.nodup_nil, ?_⟩
  intro p
  simp [PoolState.init]

theorem consistent_step (m : Nat) (s s1 : PoolState) (c : Call) (hs : s.consistent)
    (h : PoolState.step m s c = some s1) : s1.consistent := by
  obtain ⟨hb, hnd, hiff⟩ := hs
  cases c with
  | get =>
    simp only [PoolState.step] at h
    split at h
    · rename_i pos b1 hget
      injection h with h; subst h
      obtain ⟨hp64, _, hclear, _, hb1⟩ := get_thread_ok_some m s.bitmap pos b1 hb hget
      subst hb1
      have hnot : pos ∉ s.held := by
        intro hmem
        rw [(hiff pos).mp hmem] at hclear
        cases hclear
      refine ⟨or_two_pow_lt _ _ hb hp64, List.nodup_cons.mpr ⟨hnot, hnd⟩, ?_⟩
      intro p
      simp only [List.mem_cons]
      rw [testBit_lor_two_pow, hiff p]
      by_cases hp : p = pos <;> simp [hp]
    · rename_i b1 hget
      injection h with h; subst h
      have := get_thread_ok_none m s.bitmap b1 hget
      subst this
      exact ⟨hb, hnd, hiff⟩
    · cases h
  | put pos =>
    simp only [PoolState.step] at h
    split at h
    · rename_i hmem
      have hset : s.bitmap.testBit pos = true := (hiff pos).mp hmem
      have hp64 : pos < 64 := by
        by_contra hge
        rw [testBit_eq_false_of_ge s.bitmap pos hb (by omega)] at hset
        cases hset
      rw [put_thread_eq s.bitmap pos hp64] at h
      simp only at h
      injection h with h; subst h
      refine ⟨Nat.lt_of_le_of_lt Nat.and_le_left hb, hnd.erase pos, ?_⟩
      intro p
      simp only
      rw [hnd.mem_erase_iff, testBit_put s.bitmap pos p hb hp64, hiff p]
      by_cases hp : p = pos <;> simp [hp]
    · cases h

theorem consistent_run (m : Nat) (calls : List Call) :
    ∀ s s1 : PoolState, s.consistent → PoolState.run m calls s = some s1 → s1.consistent := by
  induction calls with
  | nil =>
    intro s s1 hs h
    simp only [PoolState.run] at h
    injection h with h; subst h; exact hs
  | cons c cs ih =>
    intro s s1 hs h
    simp only [PoolState.run] at h
    split at h
    · rename_i s2 hstep
      exact ih s2 s1 (consistent_step m s s2 c hs hstep) h
    · cases h

theorem no_slot_held_twice_of_run (m : Nat) (calls : List Call) (s : PoolState)
    (h : PoolState.run m calls PoolState.init = some s) :
    s.held.Nodup ∧ (∀ p, p ∈ s.held ↔ s.bitmap.testBit p = true) ∧
      ∀ pos b1, node_thread_pool.get_thread m s.bitmap = Result.ok (some pos) b1 →
        s.bitmap.testBit pos = false ∧ pos ∉ s.held ∧
          ∀ i, b1.testBit i = if i = pos then true else s.bitmap.testBit i := by
  obtain ⟨hb, hnd, hiff⟩ := consistent_run m calls _ s consistent_init h
  refine ⟨hnd, hiff, ?_⟩
  intro pos b1 hget
  obtain ⟨_, _, hclear, _, hb1⟩ := get_thread_ok_some m s.bitmap pos b1 hb hget
  refine ⟨hclear, ?_, ?_⟩
  · intro hmem
    rw [(hiff pos).mp hmem] at hclear
    cases hclear
  · subst hb1
    exact testBit_lor_two_pow s.bitmap pos

theorem put_step_defined (m : Nat) (s : PoolState) (pos : Nat) (hs : s.consistent)
    (hmem : pos ∈ s.held) : ∃ s1, PoolState.step m s (Call.put pos) = some s1 := by
  have hset : s.bitmap.testBit pos = true := (hs.2.2 pos).mp hmem
  have hp64 : pos < 64 := by
    by_contra hge
    rw [testBit_eq_false_of_ge s.bitmap pos hs.1 (by omega)] at hset
    cases hset
  simp only [PoolState.step, if_pos hmem, put_thread_eq s.bitmap pos hp64]
  exact ⟨_, rfl⟩

theorem held_lt_step (m : Nat) (s s1 : PoolState) (c : Call) (hs : s.consistent)
    (hlt : ∀ p ∈ s.held, p < m) (h : PoolState.step m s c = some s1) :
    ∀ p ∈ s1.held, p < m := by
  cases c with
  | get =>
    simp only [PoolState.step] at h
    split at h
    · rename_i pos b1 hget
      injection h with h; subst h
      obtain ⟨_, hpm, _⟩ := get_thread_ok_some m s.bitmap pos b1 hs.1 hget
      intro p hp
      rcases List.mem_cons.mp hp with h1 | h1
      · rw [h1]; exact hpm
      · exact hlt p h1
    · injection h with h; subst h; exact hlt
    · cases h
  | put pos =>
    simp only [PoolState.step] at h
    split at h
    · split at h
      · injection h with h; subst h
        intro p hp
        exact hlt p (List.mem_of_mem_erase hp)
      · cases h
    · cases h

theorem held_lt_run (m : Nat) (calls : List Call) :
    ∀ s s1 : PoolState, s.consistent → (∀ p ∈ s.held, p < m) →
      PoolState.run m calls s = some s1 → ∀ p ∈ s1.held, p < m := by
  induction calls with
  | nil =>
    intro s s1 _ hlt h
    simp only [PoolState.run] at h
    injection h with h; subst h; exact hlt
  | cons c cs ih =>
    intro s s1 hs hlt h
    simp only [PoolState.run] at h
    split at h
    · rename_i s2 hstep
      exact ih s2 s1 (consistent_step m s s2 c hs hstep) (held_lt_step m s s2 c hs hlt hstep) h
    · cases h

/-- In a state reached from the empty pool the only `get_thread`
without a defined effect is the one run on the all-ones bitmap. -/
theorem get_step_undefined_iff (m : Nat) (calls : List Call) (s : PoolState)
    (h : PoolState.run m calls PoolState.init = some s) :
    PoolState.step m s Call.get = none ↔ s.bitmap = ALL_ONES := by
  have hs := consistent_run m calls _ s consistent_init h
  have hlt := held_lt_run m calls _ s consistent_init (by simp [PoolState.init]) h
  constructor
  · intro hnone
    by_contra hne
    obtain ⟨q, hq, hqc⟩ := exists_clear_of_ne_all_ones s.bitmap hs.1 hne
    obtain ⟨p, hpq, hclear, hlow⟩ := exists_lowest_zero s.bitmap q hqc
    have hp64 : p < 64 := Nat.lt_of_le_of_lt hpq hq
    have hpm : p ≤ m := by
      by_contra hgt
      have hset := hlow m (by omega)
      have := hlt m ((hs.2.2 m).mpr hset)
      omega
    simp only [PoolState.step, get_thread_eq m s.bitmap p hs.1 hp64 hclear hlow] at hnone
    by_cases hpe : p = m
    · simp [hpe] at hnone
    · have : p < m := by omega
      simp [hpe, this] at hnone
  · intro hall
    simp only [PoolState.step, hall, get_thread_all_ones]

theorem get_step_defined_below_64 (m : Nat) (calls : List Call) (s : PoolState) (hm : m < 64)
    (h : PoolState.run m calls PoolState.init = some s) :
    ∃ s1, PoolState.step m s Call.get = some s1 := by
  have hs := consistent_run m calls _ s consistent_init h
  have hlt := held_lt_run m calls _ s consistent_init (by simp [PoolState.init]) h
  have hne : s.bitmap ≠ ALL_ONES := by
    intro hall
    have h63 : s.bitmap.testBit 63 = true := by rw [hall]; decide
    have := hlt 63 ((hs.2.2 63).mpr h63)
    omega
  have hnot := (get_step_undefined_iff m calls s h).not.mpr hne
  cases hstep : PoolState.step m s Call.get with
  | none => exact absurd hstep hnot
  | some s1 => exact ⟨s1, rfl⟩

/-- C3. In every state reached from the empty pool by calls that each have a
defined effect, no slot is held twice, the held slots are exactly the set bits
of the bitmap, a `get_thread` that returns a slot returns one whose busy bit
was clear and which nobody holds, and a `put_thread` of a held slot is defined.
A `get_thread` is without a defined effect exactly on the all-ones bitmap,
which no node of capacity below 64 reaches.  On a node of capacity 64 it is
reached: after 64 `get_thread` calls all 64 slots are held, and the next
`get_thread` applies `__builtin_ctzll` to 0, so nothing is guaranteed about
the slot it hands out. -/
theorem C3_saturated_get_thread_is_undefined :
    (∀ (m : Nat) (calls : List Call) (s : PoolState),
      PoolState.run m calls PoolState.init = some s →
      s.held.Nodup ∧ (∀ p, p ∈ s.held ↔ s.bitmap.testBit p = true) ∧
      (∀ pos b1, node_thread_pool.get_thread m s.bitmap = Result.ok (some pos) b1 →
        s.bitmap.testBit pos = false ∧ pos ∉ s.held ∧
          ∀ i, b1.testBit i = if i = pos then true else s.bitmap.testBit i) ∧
      (∀ pos, pos ∈ s.held → ∃ s1, PoolState.step m s (Call.put pos) = some s1) ∧
      (PoolState.step m s Call.get = none ↔ s.bitmap = ALL_ONES) ∧
      (m < 64 → ∃ s1, PoolState.step m s Call.get = some s1)) ∧
    PoolState.run 64 (List.replicate 64 Call.get) PoolState.init =
      some ⟨ALL_ONES, (List.range 64).reverse⟩ ∧
    (∀ p, p < 64 → p ∈ (List.range 64).reverse) ∧
    node_thread_pool.get_thread 64 ALL_ONES = Result.undefined ∧
    PoolState.step 64 ⟨ALL_ONES, (List.range 64).reverse⟩ Call.get = none ∧
    PoolState.run 64 (List.replicate 64 Call.get ++ [Call.get]) PoolState.init = none := by
  refine ⟨?_, by decide, ?_, by decide, by decide, by decide⟩
  · intro m calls s h
    obtain ⟨hnd, hiff, hget⟩ := no_slot_held_twice_of_run m calls s h
    exact ⟨hnd, hiff, hget,
      fun pos hmem => put_step_defined m s pos (consistent_run m calls _ s consistent_init h) hmem,
      get_step_undefined_iff m calls s h,
      fun hm => get_step_defined_below_64 m calls s hm h⟩
  · intro p hp
    simp only [List.mem_reverse, List.mem_range]
    exact hp

theorem get_after_put_all_ones (p : Nat) (hp : p < 64) :
    node_thread_pool.get_thread 64 (ALL_ONES &&& not64 (2 ^ p)) =
      Result.ok (some p) ALL_ONES := by
  have hb : ALL_ONES < 2 ^ 64 := by decide
  have hb1 : ALL_ONES &&& not64 (2 ^ p) < 2 ^ 64 := Nat.lt_of_le_of_lt Nat.and_le_left hb
  have hall : ∀ i, ALL_ONES.testBit i = decide (i < 64) := by
    intro i; unfold ALL_ONES; exact Nat.testBit_two_pow_sub_one 64 i
  rw [get_thread_of_lowest_zero 64 _ p hb1 hp hp]
  · congr 1
    apply Nat.eq_of_testBit_eq
    intro i
    rw [testBit_lor_two_pow, testBit_put ALL_ONES p i hb hp]
    by_cases hi : i = p
    · simp [hi, hall, hp]
    · simp [hi]
  · rw [testBit_put ALL_ONES p p hb hp]; simp
  · intro j hj
    rw [testBit_put ALL_ONES p j hb hp, hall]
    have : j ≠ p := by omega
    simp [this]; omega

/-- C2. On a node of capacity 64, 64 `get_thread` calls from the empty bitmap
succeed and fill the bitmap; the 65th call then applies `__builtin_ctzll` to 0,
whose result is undefined, so the code does not return null there.  After a
`put_thread` of any held slot `p` the next `get_thread` returns `p`. -/
theorem C2_get_thread_on_full_bitmap_is_undefined :
    PoolState.run 64 (List.replicate 64 Call.get) PoolState.init =
        some ⟨ALL_ONES, (List.range 64).reverse⟩ ∧
      node_thread_pool.get_thread 64 ALL_ONES = Result.undefined ∧
      PoolState.run 64 (List.replicate 65 Call.get) PoolState.init = none ∧
      ∀ p, p < 64 →
        node_thread_pool.put_thread ALL_ONES ⟨p, false⟩ =
            Result.ok () (ALL_ONES &&& not64 (2 ^ p)) ∧
          node_thread_pool.get_thread 64 (ALL_ONES &&& not64 (2 ^ p)) =
            Result.ok (some p) ALL_ONES :=
  ⟨by decide, by decide, by decide,
    fun p hp => ⟨put_thread_eq ALL_ONES p hp, get_after_put_all_ones p hp⟩⟩


theorem exists_clear_of_not_full (m b : Nat) (h : ¬ is_full m b) :
    ∃ q, q < m ∧ b.testBit q = false := by
  unfold is_full at h
  push_neg at h
  obtain ⟨q, hq, hne⟩ := h
  exact ⟨q, hq, by simpa using hne⟩

theorem get_thread_full (m b : Nat) (hm : m ≤ 64) (hb : b < 2 ^ m) (hfull : is_full m b)
    (hne : b ≠ ALL_ONES) : node_thread_pool.get_thread m b = Result.ok none b := by
  have hb64 : b < 2 ^ 64 := Nat.lt_of_lt_of_le hb (Nat.pow_le_pow_right (by decide) hm)
  have hm64 : m < 64 := by
    obtain ⟨q, hq, hqc⟩ := exists_clear_of_ne_all_ones b hb64 hne
    by_contra hge
    rw [hfull q (by omega)] at hqc
    cases hqc
  rw [get_thread_eq m b m hb64 hm64 (Nat.testBit_lt_two_pow hb) hfull, if_pos rfl]

theorem get_thread_not_full (m b : Nat) (hm : m ≤ 64) (hb : b < 2 ^ m)
    (hnf : ¬ is_full m b) :
    ∃ p, p < m ∧ b.testBit p = false ∧ (∀ j, j < p → b.testBit j = true) ∧
      node_thread_pool.get_thread m b = Result.ok (some p) (b ||| 2 ^ p) := by
  have hb64 : b < 2 ^ 64 := Nat.lt_of_lt_of_le hb (Nat.pow_le_pow_right (by decide) hm)
  obtain ⟨q, hq, hqc⟩ := exists_clear_of_not_full m b hnf
  obtain ⟨p, hpq, hclear, hlow⟩ := exists_lowest_zero b q hqc
  have hpm : p < m := Nat.lt_of_le_of_lt hpq hq
  exact ⟨p, hpm, hclear, hlow,
    get_thread_of_lowest_zero m b p hb64 (Nat.lt_of_lt_of_le hpm hm) hpm hclear hlow⟩

theorem get_thread_scan_spec (m : Nat) (hm : m ≤ 64) :
    ∀ (pools : List Nat) (k : Nat), (∀ b ∈ pools, b < 2 ^ m) → (∀ b ∈ pools, b ≠ ALL_ONES) →
      ((∀ b ∈ pools, is_full m b) ∧ get_thread_scan m k pools = Result.ok none pools) ∨
      ∃ i p, i < pools.length ∧ ¬ is_full m (pools.getD i 0) ∧
        (∀ j, j < i → is_full m (pools.getD j 0)) ∧ p < m ∧
        (pools.getD i 0).testBit p = false ∧
        (∀ j, j < p → (pools.getD i 0).testBit j = true) ∧
        get_thread_scan m k pools =
          Result.ok (some (k + i, p)) (pools.set i (pools.getD i 0 ||| 2 ^ p)) := by
  intro pools
  induction pools with
  | nil =>
    intro k _ _
    left
    exact ⟨by simp, rfl⟩
  | cons b rest ih =>
    intro k hwf hdef
    have hb := hwf b (List.mem_cons_self b rest)
    have hne := hdef b (List.mem_cons_self b rest)
    by_cases hfull : is_full m b
    · have hget := get_thread_full m b hm hb hfull hne
      rcases ih (k + 1) (fun x hx => hwf x (List.mem_cons_of_mem b hx))
          (fun x hx => hdef x (List.mem_cons_of_mem b hx)) with ⟨hall, hscan⟩ | ⟨i, p, hi, hnf, hbefore, hpm, hclear, hlow, hscan⟩
      · left
        refine ⟨?_, ?_⟩
        · intro x hx
          rcases List.mem_cons.mp hx with h1 | h1
          · rw [h1]; exact hfull
          · exact hall x h1
        · simp only [get_thread_scan, hget, hscan]
      · right
        refine ⟨i + 1, p, by simp [hi], by simpa using hnf, ?_, hpm, by simpa using hclear,
          by simpa using hlow, ?_⟩
        · intro j hj
          cases j with
          | zero => simpa using hfull
          | succ j => simpa using hbefore j (by omega)
        · simp only [get_thread_scan, hget, hscan, List.getD_cons_succ, List.set_cons_succ]
          congr 3
          omega
    · right
      obtain ⟨p, hpm, hclear, hlow, hget⟩ := get_thread_not_full m b hm hb hfull
      refine ⟨0, p, by simp, by simpa using hfull, by intro j hj; omega, hpm,
        by simpa using hclear, by simpa using hlow, ?_⟩
      simp only [get_thread_scan, hget, List.getD_cons_zero, List.set_cons_zero, Nat.add_zero]

theorem get_thread_first_node_of_defined (m : Nat) (pools : List Nat) (hm : m ≤ 64)
    (hwf : ∀ b ∈ pools, b < 2 ^ m) (hdef : ∀ b ∈ pools, b ≠ ALL_ONES) :
    (¬ (∀ b ∈ pools, is_full m b) →
      ∃ i p, i < pools.length ∧ ¬ is_full m (pools.getD i 0) ∧
        (∀ j, j < i → is_full m (pools.getD j 0)) ∧ p < m ∧
        (pools.getD i 0).testBit p = false ∧
        (∀ j, j < p → (pools.getD i 0).testBit j = true) ∧
        get_thread m pools =
          Result.ok (some (i, p)) (pools.set i (pools.getD i 0 ||| 2 ^ p))) ∧
    ((∃ s, get_thread m pools = Result.ok none s) ↔ ∀ b ∈ pools, is_full m b) ∧
    ((∀ b ∈ pools, is_full m b) → get_thread m pools = Result.ok none pools) := by
  unfold get_thread
  rcases get_thread_scan_spec m hm pools 0 hwf hdef with ⟨hall, hscan⟩ | ⟨i, p, hi, hnf, hbefore, hpm, hclear, hlow, hscan⟩
  · refine ⟨fun h => absurd hall h, ⟨fun _ => hall, fun _ => ⟨pools, hscan⟩⟩, fun _ => hscan⟩
  · have hnotall : ¬ (∀ b ∈ pools, is_full m b) := by
      intro hall
      apply hnf
      rw [List.getD_eq_getElem pools 0 hi]
      exact hall _ (List.getElem_mem hi)
    rw [Nat.zero_add] at hscan
    refine ⟨fun _ => ⟨i, p, hi, hnf, hbefore, hpm, hclear, hlow, hscan⟩, ⟨?_, ?_⟩, ?_⟩
    · rintro ⟨s, hs⟩
      rw [hscan] at hs
      cases hs
    · intro hall; exact absurd hall hnotall
    · intro hall; exact absurd hall hnotall

theorem ne_all_ones_of_lt (m b : Nat) (hm : m < 64) (hb : b < 2 ^ m) : b ≠ ALL_ONES := by
  intro hall
  have h1 : (2 : Nat) ^ m ≤ 2 ^ 63 := Nat.pow_le_pow_right (by decide) (by omega)
  have h2 : ALL_ONES = 2 ^ 64 - 1 := rfl
  have h3 : (2 : Nat) ^ 63 < 2 ^ 64 - 1 := by decide
  omega

/-- C5. For node bitmaps confined to the `m ≤ 64` slot positions, the
node-agnostic `thread::get_thread()` returns the lowest clear bit of the
lowest-indexed node whose bitmap is not full, leaves the bitmaps of all other
nodes unchanged, and returns null if and only if every node's bitmap is full,
provided the capacity is below 64 or no node's bitmap is the all-ones word.
At capacity 64 the all-ones word is the full bitmap, and the scan does not get
past such a node: with node 0 full and node 1 empty, and with a single full
node, the call has no defined result, because node 0's `get_thread` applies
`__builtin_ctzll` to 0.  At capacity 63 the same two situations give slot 0 of
node 1 and null. -/
theorem C5_scan_is_undefined_at_a_full_node_of_capacity_64 :
    (∀ (m : Nat) (pools : List Nat), m ≤ 64 → (∀ b ∈ pools, b < 2 ^ m) →
      (m < 64 ∨ ∀ b ∈ pools, b ≠ ALL_ONES) →
      (¬ (∀ b ∈ pools, is_full m b) →
        ∃ i p, i < pools.length ∧ ¬ is_full m (pools.getD i 0) ∧
          (∀ j, j < i → is_full m (pools.getD j 0)) ∧ p < m ∧
          (pools.getD i 0).testBit p = false ∧
          (∀ j, j < p → (pools.getD i 0).testBit j = true) ∧
          get_thread m pools =
            Result.ok (some (i, p)) (pools.set i (pools.getD i 0 ||| 2 ^ p))) ∧
      ((∃ s, get_thread m pools = Result.ok none s) ↔ ∀ b ∈ pools, is_full m b) ∧
      ((∀ b ∈ pools, is_full m b) → get_thread m pools = Result.ok none pools)) ∧
    is_full 64 ALL_ONES ∧ ALL_ONES < 2 ^ 64 ∧ ¬ is_full 64 0 ∧
    get_thread 64 [ALL_ONES, 0] = Result.undefined ∧
    get_thread 64 [ALL_ONES] = Result.undefined ∧
    is_full 63 (2 ^ 63 - 1) ∧
    get_thread 63 [2 ^ 63 - 1, 0] = Result.ok (some (1, 0)) [2 ^ 63 - 1, 1] ∧
    get_thread 63 [2 ^ 63 - 1] = Result.ok none [2 ^ 63 - 1] := by
  refine ⟨?_, by decide, by decide, by decide, by decide, by decide, by decide, by decide,
    by decide⟩
  intro m pools hm hwf hcap
  refine get_thread_first_node_of_defined m pools hm hwf ?_
  rcases hcap with h | h
  · intro b hb
    exact ne_all_ones_of_lt m b h (hwf b hb)
  · exact h

end thread

/-! ## Theorems: the transaction worker loop -/

namespace bench

theorem cumulative_eq (workload : List ℚ) (i : Nat) (hi : i < workload.length) :
    cumulative workload i = (workload.take i).sum + workload.getD i 0 := by
  unfold cumulative
  rw [List.sum_take_succ workload i hi, List.getD_eq_getElem workload 0 hi]

theorem stage_loop_spec (workload : List ℚ) (d : ℚ) :
    ∀ (fuel i : Nat), i + fuel = workload.length → i < workload.length →
      (∀ j, j < i → ¬ d < cumulative workload j) →
      ∃ k, stage_loop workload fuel i (d - (workload.take i).sum) = [k] ∧
        k < workload.length ∧ (∀ j, j < k → ¬ d < cumulative workload j) ∧
        (d < cumulative workload k ∨ k + 1 = workload.length) := by
  intro fuel
  induction fuel with
  | zero => intro i h1 h2; omega
  | succ n ih =>
    intro i hlen hi hbefore
    have hcum := cumulative_eq workload i hi
    by_cases hcond : i + 1 = workload.length ∨ d - (workload.take i).sum < workload.getD i 0
    · refine ⟨i, ?_, hi, hbefore, ?_⟩
      · simp only [stage_loop, if_pos hi, if_pos hcond]
      · rcases hcond with h | h
        · right; exact h
        · left; rw [hcum]; linarith
    · have hnl : ¬ i + 1 = workload.length := fun h => hcond (Or.inl h)
      have hnd : ¬ d - (workload.take i).sum < workload.getD i 0 := fun h => hcond (Or.inr h)
      have hnot : ¬ d < cumulative workload i := by
        rw [hcum]; intro h; apply hnd; linarith
      have hnext : d - (workload.take i).sum - workload.getD i 0
          = d - (workload.take (i + 1)).sum := by
        have := cumulative_eq workload i hi
        unfold cumulative at this
        rw [this]; ring
      obtain ⟨k, hk, hklt, hkbefore, hklast⟩ := ih (i + 1) (by omega) (by omega) (by
        intro j hj
        by_cases hji : j = i
        · rw [hji]; exact hnot
        · exact hbefore j (by omega))
      refine ⟨k, ?_, hklt, hkbefore, hklast⟩
      simp only [stage_loop, if_pos hi, if_neg hcond, hnext]
      exact hk

/-- C6. For every non-empty list of stage weights and every draw `d` (exact
arithmetic), one iteration of `bench_worker::run` executes exactly one stage:
the smallest index `i` with `d` strictly below the cumulative weight of stages
`0..i`, or the last stage when there is no such index. -/
theorem C6_stage_is_first_cumulative_weight_above_draw (workload : List ℚ) (d : ℚ)
    (hne : workload ≠ []) :
    ∃ i, executed_stages workload d = [i] ∧ i < workload.length ∧
      (∀ j, j < i → ¬ d < cumulative workload j) ∧
      (d < cumulative workload i ∨
        ((∀ j, j < workload.length → ¬ d < cumulative workload j) ∧
          i + 1 = workload.length)) := by
  have hpos : 0 < workload.length := List.length_pos.mpr hne
  obtain ⟨k, hk, hklt, hkbefore, hklast⟩ :=
    stage_loop_spec workload d workload.length 0 (by omega) hpos (by intro j hj; omega)
  simp only [List.take_zero, List.sum_nil, sub_zero] at hk
  refine ⟨k, hk, hklt, hkbefore, ?_⟩
  by_cases hd : d < cumulative workload k
  · left; exact hd
  · right
    rcases hklast with h | h
    · exact absurd h hd
    · refine ⟨?_, h⟩
      intro j hj
      by_cases hjk : j = k
      · rw [hjk]; exact hd
      · exact hkbefore j (by omega)

theorem C6_stage_is_first_cumulative_weight_above_draw_witness :
    ∃ i, executed_stages [1/2, 1/4, 1/4] (5/8) = [i] ∧ i < ([1/2, 1/4, 1/4] : List ℚ).length ∧
      (∀ j, j < i → ¬ (5/8 : ℚ) < cumulative [1/2, 1/4, 1/4] j) ∧
      ((5/8 : ℚ) < cumulative [1/2, 1/4, 1/4] i ∨
        ((∀ j, j < ([1/2, 1/4, 1/4] : List ℚ).length →
            ¬ (5/8 : ℚ) < cumulative [1/2, 1/4, 1/4] j) ∧
          i + 1 = ([1/2, 1/4, 1/4] : List ℚ).length)) :=
  C6_stage_is_first_cumulative_weight_above_draw [1/2, 1/4, 1/4] (5/8) (by simp)

/-- C7 (as stated, refuted). With weights `[0.45, 0.43, 0.12]` the draw `0.80`
does not select the third stage (index 2). -/
theorem C7_draw_080_does_not_select_third_stage :
    executed_stages [45/100, 43/100, 12/100] (80/100) ≠ [2] := by
  norm_num [executed_stages, stage_loop]

/-- C7 (amended). With weights `[0.45, 0.43, 0.12]` the draw `0.80` selects the
second stage (index 1) and the draw `0.10` selects the first stage (index 0). -/
theorem C7_draw_080_selects_second_stage :
    executed_stages [45/100, 43/100, 12/100] (80/100) = [1] ∧
      executed_stages [45/100, 43/100, 12/100] (10/100) = [0] := by
  norm_num [executed_stages, stage_loop]


theorem classify_some_of_mem (rc : sm_rc) (w : bench_worker) (ret : rc_t)
    (h : ret._val ∈ rc.abort_codes) : ∃ w1, bench_worker.classify rc w ret = some w1 ∧
      w1.seed = w.seed := by
  simp only [sm_rc.abort_codes, List.mem_cons, List.mem_singleton, List.not_mem_nil,
    or_false] at h
  unfold bench_worker.classify
  by_cases h1 : ret._val = rc.RC_ABORT_SERIAL
  · exact ⟨_, if_pos h1, rfl⟩
  rw [if_neg h1]
  by_cases h2 : ret._val = rc.RC_ABORT_SI_CONFLICT
  · exact ⟨_, if_pos h2, rfl⟩
  rw [if_neg h2]
  by_cases h3 : ret._val = rc.RC_ABORT_RW_CONFLICT
  · exact ⟨_, if_pos h3, rfl⟩
  rw [if_neg h3]
  by_cases h4 : ret._val = rc.RC_ABORT_INTERNAL
  · exact ⟨_, if_pos h4, rfl⟩
  rw [if_neg h4]
  by_cases h5 : ret._val = rc.RC_ABORT_PHANTOM
  · exact ⟨_, if_pos h5, rfl⟩
  rw [if_neg h5]
  by_cases h6 : ret._val = rc.RC_ABORT_USER
  · exact ⟨_, if_pos h6, rfl⟩
  · exfalso
    rcases h with h | h | h | h | h | h
    · exact h1 h
    · exact h2 h
    · exact h3 h
    · exact h4 h
    · exact h5 h
    · exact h6 h

theorem classify_none_iff (rc : sm_rc) (w : bench_worker) (ret : rc_t) :
    bench_worker.classify rc w ret = none ↔ ret._val ∉ rc.abort_codes := by
  constructor
  · intro hnone hmem
    obtain ⟨w1, h1, _⟩ := classify_some_of_mem rc w ret hmem
    rw [hnone] at h1
    cases h1
  · intro hnot
    simp only [sm_rc.abort_codes, List.mem_cons, List.mem_singleton, List.not_mem_nil,
      or_false, not_or] at hnot
    obtain ⟨h1, h2, h3, h4, h5, h6⟩ := hnot
    simp only [bench_worker.classify, if_neg h1, if_neg h2, if_neg h3, if_neg h4, if_neg h5,
      if_neg h6]

/-- C8. After an aborted attempt (one whose cause the `switch` classifies) the
worker retries if and only if retry-on-abort is enabled, the abort is not
user-initiated and the running flag is still set; the backoff flag has no
influence on the decision. -/
theorem C8_retry_decision (rc : sm_rc) (cfg : config) (w : bench_worker) (i : Nat)
    (c : txn_call) (habort : rc.rc_is_abort c.ret = true)
    (hcause : c.ret._val ∈ rc.abort_codes) :
    ((w.attempt rc cfg i c).is_retry = true ↔
      (cfg.retry_aborted_transaction ≠ 0 ∧ rc.rc_is_user_abort c.ret = false ∧
        c.running = true)) ∧
    ∀ flag : Int,
      (w.attempt rc { cfg with backoff_aborted_transaction := flag } i c).is_retry =
        (w.attempt rc cfg i c).is_retry := by
  have key : ∀ cfg1 : config, ((w.attempt rc cfg1 i c).is_retry = true ↔
      (cfg1.retry_aborted_transaction ≠ 0 ∧ rc.rc_is_user_abort c.ret = false ∧
        c.running = true)) := by
    intro cfg1
    obtain ⟨w3, hw3, _⟩ := classify_some_of_mem rc
      { w with seed := c.seed, ntxn_aborts := w.ntxn_aborts + 1,
               txn_counts := bump_second w.txn_counts i } c.ret hcause
    unfold bench_worker.attempt
    simp only [habort, Bool.not_true, Bool.false_eq_true, if_false, hw3]
    by_cases hcond : cfg1.retry_aborted_transaction ≠ 0 ∧ rc.rc_is_user_abort c.ret = false
        ∧ c.running = true
    · rw [if_pos hcond]
      by_cases hb : cfg1.backoff_aborted_transaction ≠ 0
      · rw [if_pos hb]; simp [Outcome.is_retry, hcond]
      · rw [if_neg hb]; simp [Outcome.is_retry, hcond]
    · rw [if_neg hcond]
      simp only [Outcome.is_retry, Bool.false_eq_true, false_iff]
      exact hcond
  refine ⟨key cfg, ?_⟩
  intro flag
  have h1 := key { cfg with backoff_aborted_transaction := flag }
  have h2 := key cfg
  simp only at h1
  rw [Bool.eq_iff_iff, h1, h2]


theorem C8_retry_decision_witness :
    (((fresh_worker 5 3).attempt sample_rc ⟨1, 0⟩ 2 ⟨⟨16⟩, 9, 7, true⟩).is_retry = true ↔
      ((1 : Int) ≠ 0 ∧ sample_rc.rc_is_user_abort ⟨16⟩ = false ∧ true = true)) ∧
    ∀ flag : Int,
      ((fresh_worker 5 3).attempt sample_rc
          { (⟨1, 0⟩ : config) with backoff_aborted_transaction := flag } 2
          ⟨⟨16⟩, 9, 7, true⟩).is_retry =
        ((fresh_worker 5 3).attempt sample_rc ⟨1, 0⟩ 2 ⟨⟨16⟩, 9, 7, true⟩).is_retry :=
  C8_retry_decision sample_rc ⟨1, 0⟩ (fresh_worker 5 3) 2 ⟨⟨16⟩, 9, 7, true⟩
    (by decide) (by decide)

theorem attempt_retry_of_abort (rc : sm_rc) (cfg : config) (w : bench_worker) (i : Nat)
    (c : txn_call) (hretry : cfg.retry_aborted_transaction ≠ 0)
    (habort : rc.rc_is_abort c.ret = true) (hcause : c.ret._val ∈ rc.abort_codes)
    (huser : rc.rc_is_user_abort c.ret = false) (hrun : c.running = true) :
    ∃ w1 spins, w.attempt rc cfg i c = Outcome.retry w1 spins ∧ w1.seed = w.seed := by
  obtain ⟨w3, hw3, _⟩ := classify_some_of_mem rc
    { w with seed := c.seed, ntxn_aborts := w.ntxn_aborts + 1,
             txn_counts := bump_second w.txn_counts i } c.ret hcause
  unfold bench_worker.attempt
  simp only [habort, Bool.not_true, Bool.false_eq_true, if_false, hw3]
  rw [if_pos ⟨hretry, huser, hrun⟩]
  by_cases hb : cfg.backoff_aborted_transaction ≠ 0
  · rw [if_pos hb]; exact ⟨_, _, rfl, rfl⟩
  · rw [if_neg hb]; exact ⟨_, _, rfl, rfl⟩

/-- C9. With retry enabled and a transaction function that reports a non-user
abort `n` times in a row, the first attempt and each of the `n` retries run on
the same stage index and start with the generator's seed equal to the seed
seen immediately before the first attempt, whatever seed each call left
behind. -/
theorem C9_retries_replay_stage_and_seed (rc : sm_rc) (cfg : config) (i : Nat)
    (aborts : List txn_call) (last : txn_call) (w : bench_worker)
    (hretry : cfg.retry_aborted_transaction ≠ 0)
    (habort : ∀ c ∈ aborts, rc.rc_is_abort c.ret = true ∧ c.ret._val ∈ rc.abort_codes ∧
      rc.rc_is_user_abort c.ret = false ∧ c.running = true) :
    (w.run_stage rc cfg i (aborts ++ [last])).1 =
      List.replicate (aborts.length + 1) (i, w.seed) := by
  induction aborts generalizing w with
  | nil =>
    simp only [List.nil_append, List.length_nil, Nat.zero_add, List.replicate_one]
    unfold bench_worker.run_stage
    split
    · rfl
    · rfl
    · simp [bench_worker.run_stage]
  | cons c cs ih =>
    obtain ⟨h1, h2, h3, h4⟩ := habort c (List.mem_cons_self c cs)
    obtain ⟨w1, spins, hatt, hseed⟩ := attempt_retry_of_abort rc cfg w i c hretry h1 h2 h3 h4
    have hrest := ih w1 (fun x hx => habort x (List.mem_cons_of_mem c hx))
    simp only [List.cons_append, List.length_cons]
    unfold bench_worker.run_stage
    simp only [hatt]
    rw [hrest, hseed]
    rfl

theorem C9_retries_replay_stage_and_seed_witness :
    ((fresh_worker 5 3).run_stage sample_rc ⟨1, 1⟩ 2
        ([⟨⟨4⟩, 11, 0, true⟩, ⟨⟨16⟩, 222, 0, true⟩, ⟨⟨64⟩, 3333, 0, true⟩] ++
          [⟨⟨1⟩, 44444, 0, true⟩])).1 =
      List.replicate
        (([⟨⟨4⟩, 11, 0, true⟩, ⟨⟨16⟩, 222, 0, true⟩, ⟨⟨64⟩, 3333, 0, true⟩] :
          List txn_call).length + 1) (2, (fresh_worker 5 3).seed) :=
  C9_retries_replay_stage_and_seed sample_rc ⟨1, 1⟩ 2
    [⟨⟨4⟩, 11, 0, true⟩, ⟨⟨16⟩, 222, 0, true⟩, ⟨⟨64⟩, 3333, 0, true⟩] ⟨⟨1⟩, 44444, 0, true⟩
    (fresh_worker 5 3) (by decide) (by decide)


theorem classify_counters (rc : sm_rc) (w w1 : bench_worker) (ret : rc_t)
    (h : bench_worker.classify rc w ret = some w1) :
    w1.ntxn_aborts = w.ntxn_aborts ∧ w1.cause_counters.sum = w.cause_counters.sum + 1 := by
  unfold bench_worker.classify at h
  split_ifs at h <;> cases h <;>
    simp only [bench_worker.cause_counters, bench_worker.inc_ntxn_serial_aborts,
      bench_worker.inc_ntxn_si_aborts, bench_worker.inc_ntxn_rw_aborts,
      bench_worker.inc_ntxn_int_aborts, bench_worker.inc_ntxn_phantom_aborts,
      bench_worker.inc_ntxn_user_aborts, List.sum_cons, List.sum_nil] <;>
    exact ⟨trivial, by omega⟩

theorem attempt_keeps_total (rc : sm_rc) (cfg : config) (w : bench_worker) (i : Nat)
    (c : txn_call) (h0 : w.ntxn_aborts = w.cause_counters.sum) :
    (∃ w1, w.attempt rc cfg i c = Outcome.fatal w1) ∨
      (w.attempt rc cfg i c).worker.ntxn_aborts =
        (w.attempt rc cfg i c).worker.cause_counters.sum := by
  unfold bench_worker.attempt
  by_cases habort : rc.rc_is_abort c.ret = true
  · simp only [habort, Bool.not_true, Bool.false_eq_true, if_false]
    split
    · left; exact ⟨_, rfl⟩
    · rename_i w3 hw3
      right
      obtain ⟨ha, hs⟩ := classify_counters rc _ w3 c.ret hw3
      have hsum : w3.ntxn_aborts = w3.cause_counters.sum := by
        rw [ha, hs]
        simp only [bench_worker.cause_counters] at h0 ⊢
        omega
      split
      · split
        · simpa [Outcome.worker, bench_worker.cause_counters] using hsum
        · simpa [Outcome.worker, bench_worker.cause_counters] using hsum
      · simpa [Outcome.worker] using hsum
  · right
    simp only [habort, Bool.not_false, if_true]
    simpa [Outcome.worker, bench_worker.cause_counters] using h0

theorem attempts_keep_total (rc : sm_rc) (cfg : config) (seq : List (Nat × txn_call)) :
    ∀ w w1 : bench_worker, w.ntxn_aborts = w.cause_counters.sum →
      w.attempts rc cfg seq = some w1 → w1.ntxn_aborts = w1.cause_counters.sum := by
  induction seq with
  | nil =>
    intro w w1 h0 h
    simp only [bench_worker.attempts] at h
    injection h with h; subst h; exact h0
  | cons a rest ih =>
    intro w w1 h0 h
    obtain ⟨i, c⟩ := a
    have hstep := attempt_keeps_total rc cfg w i c h0
    simp only [bench_worker.attempts] at h
    split at h
    · cases h
    · rename_i w2 hatt
      rw [hatt] at hstep
      rcases hstep with ⟨w3, hw3⟩ | hstep
      · cases hw3
      · exact ih w2 w1 hstep h
    · rename_i w2 sp hatt
      rw [hatt] at hstep
      rcases hstep with ⟨w3, hw3⟩ | hstep
      · cases hw3
      · exact ih w2 w1 hstep h

theorem attempt_fatal_iff (rc : sm_rc) (cfg : config) (w : bench_worker) (i : Nat)
    (c : txn_call) :
    (∃ w1, w.attempt rc cfg i c = Outcome.fatal w1) ↔
      (rc.rc_is_abort c.ret = true ∧ c.ret._val ∉ rc.abort_codes) := by
  unfold bench_worker.attempt
  by_cases habort : rc.rc_is_abort c.ret = true
  · simp only [habort, Bool.not_true, Bool.false_eq_true, if_false, true_and]
    split
    · rename_i hnone
      exact ⟨fun _ => (classify_none_iff rc _ c.ret).mp hnone, fun _ => ⟨_, rfl⟩⟩
    · rename_i w3 hw3
      constructor
      · rintro ⟨w1, h⟩
        split at h
        · split at h <;> cases h
        · cases h
      · intro h
        rw [(classify_none_iff rc _ c.ret).mpr h] at hw3
        cases hw3
  · simp only [habort, Bool.not_false, if_true]
    constructor
    · rintro ⟨w1, h⟩
      cases h
    · rintro ⟨h, _⟩
      cases h

theorem attempt_abort_counts (rc : sm_rc) (cfg : config) (w : bench_worker) (i : Nat)
    (c : txn_call) (k : Nat) (hnd : rc.abort_codes.Nodup)
    (habort : rc.rc_is_abort c.ret = true) (hk : k < 6)
    (hcode : c.ret._val = rc.abort_codes.getD k 0) :
    (w.attempt rc cfg i c).worker.ntxn_aborts = w.ntxn_aborts + 1 ∧
      (w.attempt rc cfg i c).worker.cause_counters =
        w.cause_counters.set k (w.cause_counters.getD k 0 + 1) := by
  simp only [sm_rc.abort_codes, List.nodup_cons, List.mem_cons, List.mem_singleton,
    List.not_mem_nil, or_false, not_or, List.nodup_nil, and_true] at hnd
  obtain ⟨⟨a1, a2, a3, a4, a5⟩, ⟨b2, b3, b4, b5⟩, ⟨c3, c4, c5⟩, ⟨d4, d5⟩, e5, _⟩ := hnd
  unfold bench_worker.attempt
  simp only [habort, Bool.not_true, Bool.false_eq_true, if_false]
  have hk6 : k = 0 ∨ k = 1 ∨ k = 2 ∨ k = 3 ∨ k = 4 ∨ k = 5 := by omega
  rcases hk6 with h | h | h | h | h | h <;> subst h <;>
    simp only [sm_rc.abort_codes, List.getD_cons_zero, List.getD_cons_succ] at hcode <;>
    simp [bench_worker.classify, hcode, bench_worker.cause_counters, Outcome.worker,
      bench_worker.inc_ntxn_serial_aborts, bench_worker.inc_ntxn_si_aborts,
      bench_worker.inc_ntxn_rw_aborts, bench_worker.inc_ntxn_int_aborts,
      bench_worker.inc_ntxn_phantom_aborts, bench_worker.inc_ntxn_user_aborts,
      Ne.symm a1, Ne.symm a2, Ne.symm a3, Ne.symm a4, Ne.symm a5, Ne.symm b2, Ne.symm b3,
      Ne.symm b4, Ne.symm b5, Ne.symm c3, Ne.symm c4, Ne.symm c5, Ne.symm d4, Ne.symm d5,
      Ne.symm e5] <;>
    split_ifs <;> simp

/-- C10. After any sequence of transaction attempts by one worker the total
abort counter equals the sum of the six per-cause counters; every abort whose
cause is the `k`-th case label adds one to the total and to the `k`-th
per-cause counter and to no other; and an attempt ends in the fatal assertion
exactly when it aborted with a cause that is none of the six. -/
theorem C10_total_aborts_is_sum_of_causes (rc : sm_rc) (cfg : config) (w : bench_worker)
    (seq : List (Nat × txn_call)) (w1 : bench_worker)
    (h0 : w.ntxn_aborts = w.cause_counters.sum) (hrun : w.attempts rc cfg seq = some w1) :
    w1.ntxn_aborts = w1.cause_counters.sum ∧
    (∀ (i : Nat) (c : txn_call) (k : Nat), rc.abort_codes.Nodup →
      rc.rc_is_abort c.ret = true → k < 6 → c.ret._val = rc.abort_codes.getD k 0 →
        (w1.attempt rc cfg i c).worker.ntxn_aborts = w1.ntxn_aborts + 1 ∧
        (w1.attempt rc cfg i c).worker.cause_counters =
          w1.cause_counters.set k (w1.cause_counters.getD k 0 + 1)) ∧
    (∀ (i : Nat) (c : txn_call), (∃ w2, w1.attempt rc cfg i c = Outcome.fatal w2) ↔
      (rc.rc_is_abort c.ret = true ∧ c.ret._val ∉ rc.abort_codes)) :=
  ⟨attempts_keep_total rc cfg seq w w1 h0 hrun,
    fun i c k hnd habort hk hcode => attempt_abort_counts rc cfg w1 i c k hnd habort hk hcode,
    fun i c => attempt_fatal_iff rc cfg w1 i c⟩

theorem C10_total_aborts_is_sum_of_causes_witness :
    sample_after.ntxn_aborts = sample_after.cause_counters.sum ∧
    (∀ (i : Nat) (c : txn_call) (k : Nat), sample_rc.abort_codes.Nodup →
      sample_rc.rc_is_abort c.ret = true → k < 6 → c.ret._val = sample_rc.abort_codes.getD k 0 →
        (sample_after.attempt sample_rc ⟨1, 1⟩ i c).worker.ntxn_aborts =
          sample_after.ntxn_aborts + 1 ∧
        (sample_after.attempt sample_rc ⟨1, 1⟩ i c).worker.cause_counters =
          sample_after.cause_counters.set k (sample_after.cause_counters.getD k 0 + 1)) ∧
    (∀ (i : Nat) (c : txn_call),
      (∃ w2, sample_after.attempt sample_rc ⟨1, 1⟩ i c = Outcome.fatal w2) ↔
      (sample_rc.rc_is_abort c.ret = true ∧ c.ret._val ∉ sample_rc.abort_codes)) :=
  C10_total_aborts_is_sum_of_causes sample_rc ⟨1, 1⟩ (fresh_worker 5 3)
    [(0, ⟨⟨4⟩, 11, 2, true⟩), (0, ⟨⟨1⟩, 12, 3, true⟩), (2, ⟨⟨128⟩, 13, 4, true⟩)]
    sample_after (by decide) (by decide)

theorem backoff_exact_below_58 (s : Nat) (hs : s < 57) :
    backoff s = (s + 1, 2 ^ (s + 1) * 100) := by
  have h63 : s < 63 := by omega
  have hpow : 2 ^ (s + 1) ≤ 2 ^ 57 := Nat.pow_le_pow_right (by decide) (by omega)
  have hlt : 2 ^ (s + 1) < 2 ^ 64 :=
    Nat.lt_of_le_of_lt hpow (by decide)
  have hlt2 : 2 ^ (s + 1) * 100 < 2 ^ 64 :=
    Nat.lt_of_le_of_lt (Nat.mul_le_mul_right 100 hpow) (by decide)
  simp only [backoff, if_pos h63, Nat.one_shiftLeft, Nat.mod_eq_of_lt hlt,
    Nat.mod_eq_of_lt hlt2]

/-- C11. With backoff enabled the spin count is `2 ^ shift * 100` only for
shift values 1 through 57.  From shift 58 on the 64-bit product wraps: at 58
the worker spins `36 * 2 ^ 58` times, and at 62 and 63 it does not spin at
all. -/
theorem C11_spin_count_wraps_from_shift_58 :
    (∀ s, s < 57 → backoff s = (s + 1, 2 ^ (s + 1) * 100)) ∧
      backoff 57 = (58, 36 * 2 ^ 58) ∧ (backoff 57).2 ≠ 2 ^ 58 * 100 ∧
      backoff 61 = (62, 0) ∧ backoff 62 = (63, 0) ∧ backoff 63 = (63, 0) ∧
      (({ fresh_worker 5 3 with backoff_shifts := 57 } : bench_worker).attempt sample_rc
          ⟨1, 1⟩ 0 ⟨⟨4⟩, 9, 0, true⟩).spins = 36 * 2 ^ 58 ∧
      (({ fresh_worker 5 3 with backoff_shifts := 62 } : bench_worker).attempt sample_rc
          ⟨1, 1⟩ 0 ⟨⟨4⟩, 9, 0, true⟩) =
        Outcome.retry
          { fresh_worker 5 3 with
            backoff_shifts := 63, ntxn_aborts := 1, ntxn_serial_aborts := 1,
            txn_counts := [(0, 1), (0, 0), (0, 0)] } 0 :=
  ⟨backoff_exact_below_58, by decide, by decide, by decide, by decide, by decide,
    by decide, by decide⟩

theorem getD_bump_first (counts : List (Nat × Nat)) (i j : Nat) (hi : i < counts.length) :
    (bump_first counts i).getD j (0, 0) =
      if j = i then ((counts.getD i (0, 0)).1 + 1, (counts.getD i (0, 0)).2)
      else counts.getD j (0, 0) := by
  unfold bump_first
  by_cases hji : j = i
  · subst hji
    simp [List.getD_eq_getElem?_getD, List.getElem?_set, hi]
  · have hij : ¬ i = j := fun e => hji e.symm
    simp [List.getD_eq_getElem?_getD, List.getElem?_set, hji, hij]

/-- C12. A committed attempt of stage `i` adds one to the worker's commit
counter and to stage `i`'s commit count, changes no other stage count and no
abort counter, and replaces the backoff shift counter `s` by `s / 2` (rounded
down). -/
theorem C12_commit_updates (rc : sm_rc) (cfg : config) (w : bench_worker) (i : Nat)
    (c : txn_call) (hcommit : rc.rc_is_abort c.ret = false) (hi : i < w.txn_counts.length) :
    ∃ w1, w.attempt rc cfg i c = Outcome.done w1 ∧
      w1.ntxn_commits = w.ntxn_commits + 1 ∧
      w1.txn_counts.length = w.txn_counts.length ∧
      w1.txn_counts.getD i (0, 0) =
        ((w.txn_counts.getD i (0, 0)).1 + 1, (w.txn_counts.getD i (0, 0)).2) ∧
      (∀ j, j ≠ i → w1.txn_counts.getD j (0, 0) = w.txn_counts.getD j (0, 0)) ∧
      w1.ntxn_aborts = w.ntxn_aborts ∧ w1.cause_counters = w.cause_counters ∧
      w1.backoff_shifts = w.backoff_shifts / 2 := by
  unfold bench_worker.attempt
  simp only [hcommit, Bool.not_false, if_true]
  refine ⟨_, rfl, rfl, ?_, ?_, ?_, rfl, rfl, ?_⟩
  · simp [bump_first]
  · simp only
    rw [getD_bump_first w.txn_counts i i hi, if_pos rfl]
  · intro j hj
    simp only
    rw [getD_bump_first w.txn_counts i j hi, if_neg hj]
  · simp only [Nat.shiftRight_succ, Nat.shiftRight_zero]

theorem C12_commit_updates_witness :
    ∃ w1, sample_after.attempt sample_rc ⟨1, 1⟩ 2 ⟨⟨1⟩, 77, 6, true⟩ = Outcome.done w1 ∧
      w1.ntxn_commits = sample_after.ntxn_commits + 1 ∧
      w1.txn_counts.length = sample_after.txn_counts.length ∧
      w1.txn_counts.getD 2 (0, 0) =
        ((sample_after.txn_counts.getD 2 (0, 0)).1 + 1,
          (sample_after.txn_counts.getD 2 (0, 0)).2) ∧
      (∀ j, j ≠ 2 → w1.txn_counts.getD j (0, 0) = sample_after.txn_counts.getD j (0, 0)) ∧
      w1.ntxn_aborts = sample_after.ntxn_aborts ∧
      w1.cause_counters = sample_after.cause_counters ∧
      w1.backoff_shifts = sample_after.backoff_shifts / 2 :=
  C12_commit_updates sample_rc ⟨1, 1⟩ sample_after 2 ⟨⟨1⟩, 77, 6, true⟩ (by decide) (by decide)

theorem classify_commits (rc : sm_rc) (w w1 : bench_worker) (ret : rc_t)
    (h : bench_worker.classify rc w ret = some w1) : w1.ntxn_commits = w.ntxn_commits := by
  unfold bench_worker.classify at h
  split_ifs at h <;> cases h <;> rfl

theorem attempt_commits (rc : sm_rc) (cfg : config) (w : bench_worker) (i : Nat)
    (c : txn_call) :
    (∀ w1 s, w.attempt rc cfg i c = Outcome.retry w1 s → w1.ntxn_commits = w.ntxn_commits) ∧
    (∀ w1, w.attempt rc cfg i c = Outcome.fatal w1 → w1.ntxn_commits = w.ntxn_commits) ∧
    (∀ w1, w.attempt rc cfg i c = Outcome.done w1 → w1.ntxn_commits ≤ w.ntxn_commits + 1) := by
  unfold bench_worker.attempt
  by_cases habort : rc.rc_is_abort c.ret = true
  · simp only [habort, Bool.not_true, Bool.false_eq_true, if_false]
    split
    · refine ⟨?_, ?_, ?_⟩
      · intro w1 s h; cases h
      · intro w1 h; cases h; rfl
      · intro w1 h; cases h
    · rename_i w3 hw3
      have hc := classify_commits rc _ w3 c.ret hw3
      simp only at hc
      refine ⟨?_, ?_, ?_⟩
      · intro w1 s h
        split_ifs at h <;> cases h <;> exact hc
      · intro w1 h
        split_ifs at h
      · intro w1 h
        split_ifs at h
        cases h
        omega
  · simp only [habort, Bool.not_false, if_true]
    refine ⟨?_, ?_, ?_⟩
    · intro w1 s h; cases h
    · intro w1 h; cases h
    · intro w1 h; cases h; exact Nat.le_refl _

theorem pass_starts_commits (rc : sm_rc) (cfg : config) (i : Nat) (calls : List txn_call) :
    ∀ w ws, ws ∈ bench_worker.pass_starts rc cfg i w calls →
      ws.ntxn_commits = w.ntxn_commits := by
  induction calls with
  | nil => intro w ws h; simp [bench_worker.pass_starts] at h
  | cons c cs ih =>
    intro w ws h
    unfold bench_worker.pass_starts at h
    split at h
    · rename_i w1 s hatt
      rcases List.mem_cons.mp h with h1 | h1
      · rw [h1]
      · rw [ih w1 ws h1]
        exact (attempt_commits rc cfg w i c).1 w1 s hatt
    · rw [List.mem_singleton.mp h]

theorem run_stage_commits (rc : sm_rc) (cfg : config) (i : Nat) (calls : List txn_call) :
    ∀ w, (∀ w1, (bench_worker.run_stage rc cfg i w calls).2 = Status.fatal w1 →
        w1.ntxn_commits = w.ntxn_commits) ∧
      (∀ w1, (bench_worker.run_stage rc cfg i w calls).2 = Status.pending w1 →
        w1.ntxn_commits = w.ntxn_commits) ∧
      (∀ w1, (bench_worker.run_stage rc cfg i w calls).2 = Status.done w1 →
        w1.ntxn_commits ≤ w.ntxn_commits + 1) := by
  induction calls with
  | nil =>
    intro w
    simp only [bench_worker.run_stage]
    refine ⟨?_, ?_, ?_⟩
    · intro w1 h; cases h
    · intro w1 h; cases h; rfl
    · intro w1 h; cases h
  | cons c cs ih =>
    intro w
    obtain ⟨hr, hf, hd⟩ := attempt_commits rc cfg w i c
    unfold bench_worker.run_stage
    split
    · rename_i w2 hatt
      refine ⟨?_, ?_, ?_⟩
      · intro w1 h; cases h; exact hf w2 hatt
      · intro w1 h; cases h
      · intro w1 h; cases h
    · rename_i w2 hatt
      refine ⟨?_, ?_, ?_⟩
      · intro w1 h; cases h
      · intro w1 h; cases h
      · intro w1 h; cases h; exact hd w2 hatt
    · rename_i w2 s hatt
      have hw2 := hr w2 s hatt
      obtain ⟨h1, h2, h3⟩ := ih w2
      simp only
      refine ⟨?_, ?_, ?_⟩
      · intro w1 h; rw [h1 w1 h, hw2]
      · intro w1 h; rw [h2 w1 h, hw2]
      · intro w1 h; have := h3 w1 h; omega

theorem run_loop_commits (rc : sm_rc) (cfg : config) (p : run_params) (workload : List ℚ)
    (hmode : p.run_mode = p.RUNMODE_OPS) (its : List iteration) :
    ∀ w : bench_worker, w.ntxn_commits ≤ p.ops_per_worker →
      (∀ ws ∈ (w.run_loop rc cfg p workload its).1, ws.ntxn_commits < p.ops_per_worker) ∧
      (w.run_loop rc cfg p workload its).2.worker.ntxn_commits ≤ p.ops_per_worker ∧
      (∀ w1, (w.run_loop rc cfg p workload its).2 = LoopStatus.exited w1 true →
        w1.ntxn_commits = p.ops_per_worker) := by
  induction its with
  | nil =>
    intro w hw
    simp only [bench_worker.run_loop, LoopStatus.worker]
    refine ⟨?_, hw, ?_⟩
    · intro ws h; cases h
    · intro w1 h; cases h
  | cons it rest ih =>
    intro w hw
    unfold bench_worker.run_loop
    split_ifs with hcond
    · obtain ⟨_, hlt⟩ := hcond
      have hlt : w.ntxn_commits < p.ops_per_worker := by
        rcases hlt with h | h
        · exact absurd hmode h
        · exact h
      simp only
      split
      · exact ih _ hw
      · rename_i i tl hsel
        have hstarts := pass_starts_commits rc cfg i it.calls { w with seed := it.seed }
        obtain ⟨hf, hp, hd⟩ := run_stage_commits rc cfg i it.calls { w with seed := it.seed }
        simp only at hstarts hf hp hd
        split
        · rename_i w1 hst
          refine ⟨?_, ?_, ?_⟩
          · intro ws h; rw [hstarts ws h]; exact hlt
          · simp only [LoopStatus.worker]; rw [hf w1 hst]; exact hw
          · intro w2 h; cases h
        · rename_i w1 hst
          refine ⟨?_, ?_, ?_⟩
          · intro ws h; rw [hstarts ws h]; exact hlt
          · simp only [LoopStatus.worker]; rw [hp w1 hst]; exact hw
          · intro w2 h; cases h
        · rename_i w1 hst
          have hw1 : w1.ntxn_commits ≤ p.ops_per_worker := by
            have := hd w1 hst
            omega
          obtain ⟨h1, h2, h3⟩ := ih w1 hw1
          refine ⟨?_, h2, h3⟩
          intro ws h
          rcases List.mem_append.mp h with h | h
          · rw [hstarts ws h]; exact hlt
          · exact h1 ws h
    · simp only [LoopStatus.worker]
      refine ⟨?_, hw, ?_⟩
      · intro ws h; cases h
      · intro w1 h
        injection h with h1 h2
        subst h1
        have : ¬ w.ntxn_commits < p.ops_per_worker := by
          intro hlt
          exact hcond ⟨h2, Or.inr hlt⟩
        omega

/-- C13. In fixed-operation-count mode, starting from zero commits, every pass
through the attempt body starts with fewer than `ops_per_worker` commits, the
commit count never exceeds `ops_per_worker` wherever the run has got to, and
when the loop exits having read `running` as set the commit count equals
`ops_per_worker`. -/
theorem C13_commits_bounded_by_ops_per_worker (rc : sm_rc) (cfg : config) (p : run_params)
    (workload : List ℚ) (w : bench_worker) (its : List iteration)
    (hmode : p.run_mode = p.RUNMODE_OPS) (h0 : w.ntxn_commits = 0) :
    (∀ ws ∈ (w.run_loop rc cfg p workload its).1, ws.ntxn_commits < p.ops_per_worker) ∧
    (w.run_loop rc cfg p workload its).2.worker.ntxn_commits ≤ p.ops_per_worker ∧
    (∀ w1, (w.run_loop rc cfg p workload its).2 = LoopStatus.exited w1 true →
      w1.ntxn_commits = p.ops_per_worker) :=
  run_loop_commits rc cfg p workload hmode its w (by omega)

theorem C13_commits_bounded_by_ops_per_worker_witness :
    (∀ ws ∈ ((fresh_worker 5 2).run_loop sample_rc ⟨1, 0⟩ ⟨1, 1, 2⟩ [1/2, 1/2]
        sample_iterations).1, ws.ntxn_commits < (⟨1, 1, 2⟩ : run_params).ops_per_worker) ∧
    ((fresh_worker 5 2).run_loop sample_rc ⟨1, 0⟩ ⟨1, 1, 2⟩ [1/2, 1/2]
        sample_iterations).2.worker.ntxn_commits ≤ (⟨1, 1, 2⟩ : run_params).ops_per_worker ∧
    (∀ w1, ((fresh_worker 5 2).run_loop sample_rc ⟨1, 0⟩ ⟨1, 1, 2⟩ [1/2, 1/2]
        sample_iterations).2 = LoopStatus.exited w1 true →
      w1.ntxn_commits = (⟨1, 1, 2⟩ : run_params).ops_per_worker) :=
  C13_commits_bounded_by_ops_per_worker sample_rc ⟨1, 0⟩ ⟨1, 1, 2⟩ [1/2, 1/2]
    (fresh_worker 5 2) sample_iterations (by decide) rfl

theorem classify_backoff_shifts (rc : sm_rc) (w w1 : bench_worker) (ret : rc_t)
    (h : bench_worker.classify rc w ret = some w1) : w1.backoff_shifts = w.backoff_shifts := by
  unfold bench_worker.classify at h
  split_ifs at h <;> cases h <;> rfl

theorem backoff_counter_le (s : Nat) (hs : s ≤ 63) : (backoff s).1 ≤ 63 := by
  unfold backoff
  simp only
  split_ifs <;> omega

theorem attempt_backoff_shifts_le (rc : sm_rc) (cfg : config) (w : bench_worker) (i : Nat)
    (c : txn_call) (hs : w.backoff_shifts ≤ 63) :
    (w.attempt rc cfg i c).worker.backoff_shifts ≤ 63 := by
  unfold bench_worker.attempt
  by_cases habort : rc.rc_is_abort c.ret = true
  · simp only [habort, Bool.not_true, Bool.false_eq_true, if_false]
    split
    · exact hs
    · rename_i w3 hw3
      have h3 := classify_backoff_shifts rc _ w3 c.ret hw3
      simp only at h3
      have h3le : w3.backoff_shifts ≤ 63 := by rw [h3]; exact hs
      split_ifs
      · exact backoff_counter_le w3.backoff_shifts h3le
      · exact h3le
      · exact h3le
  · simp only [habort, Bool.not_false, if_true, Outcome.worker]
    have : w.backoff_shifts >>> 1 ≤ w.backoff_shifts := by
      rw [Nat.shiftRight_eq_div_pow]
      exact Nat.div_le_self _ _
    omega

theorem attempts_backoff_shifts_le (rc : sm_rc) (cfg : config) (seq : List (Nat × txn_call)) :
    ∀ w w1 : bench_worker, w.backoff_shifts ≤ 63 → w.attempts rc cfg seq = some w1 →
      w1.backoff_shifts ≤ 63 := by
  induction seq with
  | nil =>
    intro w w1 hs h
    simp only [bench_worker.attempts] at h
    injection h with h; subst h; exact hs
  | cons a rest ih =>
    intro w w1 hs h
    obtain ⟨i, c⟩ := a
    have hstep := attempt_backoff_shifts_le rc cfg w i c hs
    simp only [bench_worker.attempts] at h
    split at h
    · cases h
    · rename_i w2 hatt
      rw [hatt] at hstep
      exact ih w2 w1 hstep h
    · rename_i w2 sp hatt
      rw [hatt] at hstep
      exact ih w2 w1 hstep h

/-- C24. Starting from a backoff shift counter of 0, after every sequence of
commits and aborts, for any setting of the retry and backoff flags, the
counter is at most 63; so is the counter the next backoff block shifts by,
and the counter any further attempt leaves. -/
theorem C24_backoff_shifts_at_most_63 (rc : sm_rc) (cfg : config) (w : bench_worker)
    (seq : List (Nat × txn_call)) (w1 : bench_worker) (h0 : w.backoff_shifts = 0)
    (hrun : w.attempts rc cfg seq = some w1) :
    w1.backoff_shifts ≤ 63 ∧ (backoff w1.backoff_shifts).1 < 64 ∧
      ∀ (i : Nat) (c : txn_call), (w1.attempt rc cfg i c).worker.backoff_shifts ≤ 63 := by
  have h1 := attempts_backoff_shifts_le rc cfg seq w w1 (by omega) hrun
  refine ⟨h1, ?_, fun i c => attempt_backoff_shifts_le rc cfg w1 i c h1⟩
  have := backoff_counter_le w1.backoff_shifts h1
  omega

theorem C24_backoff_shifts_at_most_63_witness :
    sample_after.backoff_shifts ≤ 63 ∧ (backoff sample_after.backoff_shifts).1 < 64 ∧
      ∀ (i : Nat) (c : txn_call),
        (sample_after.attempt sample_rc ⟨1, 1⟩ i c).worker.backoff_shifts ≤ 63 :=
  C24_backoff_shifts_at_most_63 sample_rc ⟨1, 1⟩ (fresh_worker 5 3)
    [(0, ⟨⟨4⟩, 11, 2, true⟩), (0, ⟨⟨1⟩, 12, 3, true⟩), (2, ⟨⟨128⟩, 13, 4, true⟩)]
    sample_after rfl (by decide)

end bench

/-! ## Theorems: version objects -/

namespace obj

theorem create_tuple_object_eq (env : layout) (tuple_value : Option varstr) (do_write : Bool)
    (epoch : Nat) (blk : block) (hchk : object.value_checks env tuple_value epoch blk) :
    object.create_tuple_object env tuple_value do_write epoch blk =
      Ret.ok ⟨env.sizeof_dbtuple + env.sizeof_object + value_data_sz tuple_value, epoch,
        ⟨epoch, NULL_PTR, NULL_PTR,
          ⟨value_data_sz tuple_value, tuple_value.map varstr.addr,
            (do_write || tuple_value.isSome), []⟩⟩,
        fat_ptr.make blk.addr
          (env.encode_size_aligned
            (env.sizeof_dbtuple + env.sizeof_object + value_data_sz tuple_value)) 0⟩ := by
  unfold object.value_checks at hchk
  unfold object.create_tuple_object
  by_cases ha : env.check_asserts = true
  · obtain ⟨h1, h2⟩ := hchk ha
    simp only [ha, true_and, not_not.mpr h1, if_false, dbtuple.new, ne_eq, not_true_eq_false,
      h2, dbtuple.do_write]
    cases tuple_value <;> cases do_write <;> rfl
  · simp only [ha, false_and, if_false, dbtuple.new, dbtuple.do_write]
    cases tuple_value <;> cases do_write <;> rfl

/-- C14. Whenever `create_tuple_object(value, do_write, epoch)` returns, for
any value or null, any flag, any epoch and whatever epoch the block carried
before, the object's allocation epoch is the caller's `epoch`; and it does
return when its two assertions hold or are compiled out. -/
theorem C14_alloc_epoch_is_callers_epoch (env : layout) (tuple_value : Option varstr)
    (do_write : Bool) (epoch : Nat) (blk : block) :
    (∀ r, object.create_tuple_object env tuple_value do_write epoch blk = Ret.ok r →
      r.obj._alloc_epoch = epoch) ∧
    (object.value_checks env tuple_value epoch blk →
      ∃ r, object.create_tuple_object env tuple_value do_write epoch blk = Ret.ok r ∧
        r.obj._alloc_epoch = epoch) := by
  constructor
  · intro r h
    unfold object.create_tuple_object at h
    simp only at h
    split_ifs at h
    all_goals (injection h with h; subst h; rfl)
  · intro hchk
    exact ⟨_, create_tuple_object_eq env tuple_value do_write epoch blk hchk, rfl⟩

theorem C14_alloc_epoch_is_callers_epoch_witness :
    ∃ r, object.create_tuple_object sample_layout (some ⟨4096, 100⟩) false 10 ⟨8192, 6⟩ =
        Ret.ok r ∧ r.obj._alloc_epoch = 10 :=
  (C14_alloc_epoch_is_callers_epoch sample_layout (some ⟨4096, 100⟩) false 10 ⟨8192, 6⟩).2
    (by decide)

/-- The length `size()` reports for the value, `0` for a null pointer. -/
theorem value_data_sz_eq (tuple_value : Option varstr)
    (hn : ∀ v, tuple_value = some v → v.size < 2 ^ 32) :
    value_data_sz tuple_value = (tuple_value.map varstr.size).getD 0 := by
  cases tuple_value with
  | none => rfl
  | some v =>
    show v.size % 2 ^ 32 = v.size
    exact Nat.mod_eq_of_lt (hn v rfl)

/-- C15 (as stated, refuted). For a value whose `size()` is `2 ^ 32 + 10` the
call returns an object whose tuple has payload length 10, not `2 ^ 32 + 10`:
`data_sz` is a `uint32_t`. -/
theorem C15_length_of_long_value_is_truncated :
    ∃ r, object.create_tuple_object sample_layout (some ⟨4096, 2 ^ 32 + 10⟩) true 10
          ⟨8192, 6⟩ = Ret.ok r ∧
      r.obj.tuple.size = 10 ∧ r.obj.tuple.size ≠ 2 ^ 32 + 10 ∧
      r.obj.tuple.pvalue = some 4096 :=
  ⟨_, create_tuple_object_eq sample_layout (some ⟨4096, 2 ^ 32 + 10⟩) true 10 ⟨8192, 6⟩
    (by decide), by decide, by decide, rfl⟩

/-- C15 (amended). For a non-null value of `n` bytes with `n < 2 ^ 32`
`create_tuple_object(value, do_write, epoch)` yields an object whose tuple has
payload length `n` and whose value pointer equals the input pointer; for a
null value the length is 0 and the pointer null.  For any `n` the length is
`n mod 2 ^ 32`. -/
theorem C15_payload_length_and_value_pointer (env : layout) (tuple_value : Option varstr)
    (do_write : Bool) (epoch : Nat) (blk : block)
    (hchk : object.value_checks env tuple_value epoch blk) :
    ∃ r, object.create_tuple_object env tuple_value do_write epoch blk = Ret.ok r ∧
      (∀ v, tuple_value = some v →
        r.obj.tuple.size = v.size % 2 ^ 32 ∧
        (v.size < 2 ^ 32 → r.obj.tuple.size = v.size) ∧
        r.obj.tuple.pvalue = some v.addr) ∧
      (tuple_value = none → r.obj.tuple.size = 0 ∧ r.obj.tuple.pvalue = none) := by
  refine ⟨_, create_tuple_object_eq env tuple_value do_write epoch blk hchk, ?_, ?_⟩
  · intro v hv
    subst hv
    exact ⟨rfl, fun hn => Nat.mod_eq_of_lt hn, rfl⟩
  · intro hv
    subst hv
    exact ⟨rfl, rfl⟩

theorem C15_payload_length_and_value_pointer_witness :
    ∃ r, object.create_tuple_object sample_layout (some ⟨4096, 100⟩) true 10 ⟨8192, 6⟩ =
        Ret.ok r ∧
      (∀ v, (some ⟨4096, 100⟩ : Option varstr) = some v →
        r.obj.tuple.size = v.size % 2 ^ 32 ∧
        (v.size < 2 ^ 32 → r.obj.tuple.size = v.size) ∧
        r.obj.tuple.pvalue = some v.addr) ∧
      ((some ⟨4096, 100⟩ : Option varstr) = none →
        r.obj.tuple.size = 0 ∧ r.obj.tuple.pvalue = none) :=
  C15_payload_length_and_value_pointer sample_layout (some ⟨4096, 100⟩) true 10 ⟨8192, 6⟩
    (by decide)

/-- C16. `create_tuple_object(value, do_write, epoch)` marks the new tuple
pending-write if and only if `do_write` is true or `value` is non-null. -/
theorem C16_marked_iff_do_write_or_value (env : layout) (tuple_value : Option varstr)
    (do_write : Bool) (epoch : Nat) (blk : block)
    (hchk : object.value_checks env tuple_value epoch blk) :
    ∃ r, object.create_tuple_object env tuple_value do_write epoch blk = Ret.ok r ∧
      (r.obj.tuple.write_marked = true ↔ (do_write = true ∨ tuple_value ≠ none)) := by
  refine ⟨_, create_tuple_object_eq env tuple_value do_write epoch blk hchk, ?_⟩
  cases tuple_value <;> cases do_write <;> simp

theorem C16_marked_iff_do_write_or_value_witness :
    ∃ r, object.create_tuple_object sample_layout none false 10 ⟨8192, 6⟩ = Ret.ok r ∧
      (r.obj.tuple.write_marked = true ↔ (false = true ∨ (none : Option varstr) ≠ none)) :=
  C16_marked_iff_do_write_or_value sample_layout none false 10 ⟨8192, 6⟩ (by decide)

/-- C17 (as stated, refuted). For a value whose `size()` is `2 ^ 32 + 10`
the call requests `sizeof(object) + sizeof(dbtuple) + 10` bytes (66 with the
sample sizes 32 and 24), not `sizeof(object) + sizeof(dbtuple) + 2 ^ 32 + 10`:
the length is first stored in the `uint32_t data_sz`. -/
theorem C17_request_for_long_value_is_truncated :
    ∃ r, object.create_tuple_object sample_layout (some ⟨4096, 2 ^ 32 + 10⟩) true 10
          ⟨8192, 6⟩ = Ret.ok r ∧
      r.alloc_sz = 66 ∧
      r.alloc_sz ≠ sample_layout.sizeof_object + sample_layout.sizeof_dbtuple + (2 ^ 32 + 10) :=
  ⟨_, create_tuple_object_eq sample_layout (some ⟨4096, 2 ^ 32 + 10⟩) true 10 ⟨8192, 6⟩
    (by decide), by decide, by decide⟩

/-- C17 (amended). `create_tuple_object(value, do_write, epoch)` makes one
allocation request, at the caller's epoch, of `sizeof(object) +
sizeof(dbtuple) + n` bytes, where `n` is the value's length (0 for null) and
`n < 2 ^ 32`; it returns a reference to that block with flag bits 0 (in
memory) and the size code of that same total.  For any `n` the request is for
`sizeof(object) + sizeof(dbtuple) + (n mod 2 ^ 32)` bytes. -/
theorem C17_allocation_size_and_returned_reference (env : layout)
    (tuple_value : Option varstr) (do_write : Bool) (epoch : Nat) (blk : block)
    (hchk : object.value_checks env tuple_value epoch blk) :
    ∃ r, object.create_tuple_object env tuple_value do_write epoch blk = Ret.ok r ∧
      r.alloc_sz = env.sizeof_object + env.sizeof_dbtuple +
        (tuple_value.map varstr.size).getD 0 % 2 ^ 32 ∧
      ((∀ v, tuple_value = some v → v.size < 2 ^ 32) →
        r.alloc_sz = env.sizeof_object + env.sizeof_dbtuple +
          (tuple_value.map varstr.size).getD 0) ∧
      r.alloc_epoch = epoch ∧
      r.ret.offset = blk.addr ∧ r.ret.flags = 0 ∧
      r.ret.size_code = env.encode_size_aligned r.alloc_sz := by
  refine ⟨_, create_tuple_object_eq env tuple_value do_write epoch blk hchk, ?_, ?_, rfl, rfl,
    rfl, rfl⟩
  · cases tuple_value with
    | none => simp [value_data_sz]; omega
    | some v => simp [value_data_sz]; omega
  · intro hn
    simp only
    rw [value_data_sz_eq tuple_value hn]
    omega

theorem C17_allocation_size_and_returned_reference_witness :
    ∃ r, object.create_tuple_object sample_layout (some ⟨4096, 100⟩) true 10 ⟨8192, 6⟩ =
        Ret.ok r ∧
      r.alloc_sz = sample_layout.sizeof_object + sample_layout.sizeof_dbtuple +
        ((some ⟨4096, 100⟩ : Option varstr).map varstr.size).getD 0 % 2 ^ 32 ∧
      ((∀ v, (some ⟨4096, 100⟩ : Option varstr) = some v → v.size < 2 ^ 32) →
        r.alloc_sz = sample_layout.sizeof_object + sample_layout.sizeof_dbtuple +
          ((some ⟨4096, 100⟩ : Option varstr).map varstr.size).getD 0) ∧
      r.alloc_epoch = 10 ∧
      r.ret.offset = (⟨8192, 6⟩ : block).addr ∧ r.ret.flags = 0 ∧
      r.ret.size_code = sample_layout.encode_size_aligned r.alloc_sz :=
  C17_allocation_size_and_returned_reference sample_layout (some ⟨4096, 100⟩) true 10
    ⟨8192, 6⟩ (by decide)

theorem create_from_log_eq (env : layout) (ptr nxt : fat_ptr) (epoch : Nat)
    (lm logmgr : Option (Nat → fat_ptr → List Nat)) (is_backup_srv : Bool)
    (flushed : List Nat) (blk : block) (load : Nat → fat_ptr → List Nat)
    (hreach : object.reaches_length_check env ptr logmgr is_backup_srv flushed)
    (hsrc : log_source lm logmgr = some load)
    (hfit : env.sizeof_varstr + env.varstr_size (load (log_data_sz env ptr) ptr) ≤
      log_data_sz env ptr)
    (hsize : env.varstr_size (load (log_data_sz env ptr) ptr) < log_data_sz env ptr)
    (hclsn : env.check_asserts = true → env.asi_type env.ASI_LOG_FLAG = env.ASI_LOG) :
    object.create_tuple_object_from_log env ptr nxt epoch lm logmgr is_backup_srv flushed blk =
      Ret.ok ⟨log_data_sz env ptr + env.sizeof_object + env.sizeof_dbtuple, 0,
        ⟨epoch,
          fat_ptr.make ptr.offset
            (env.encode_size_aligned
              (log_data_sz env ptr + env.sizeof_object + env.sizeof_dbtuple))
            env.ASI_LOG_FLAG,
          nxt,
          ⟨env.varstr_size (load (log_data_sz env ptr) ptr), none, false,
            ((load (log_data_sz env ptr) ptr).drop env.sizeof_varstr).take
                (env.varstr_size (load (log_data_sz env ptr) ptr)) ++
              (load (log_data_sz env ptr) ptr).drop
                (env.varstr_size (load (log_data_sz env ptr) ptr))⟩⟩,
        fat_ptr.make blk.addr
          (env.encode_size_aligned
            (log_data_sz env ptr + env.sizeof_object + env.sizeof_dbtuple)) 0⟩ := by
  obtain ⟨hlog, hwait⟩ := hreach
  have h1 : ¬ (env.check_asserts = true ∧ env.asi_type ptr.flags ≠ env.ASI_LOG) :=
    fun h => h.2 (hlog h.1)
  have h2 : ¬ (is_backup_srv = true ∧ logmgr.isNone = true) := by
    intro h
    have := (hwait h.1).1
    rw [h.2] at this
    cases this
  have h3 : ¬ (is_backup_srv = true ∧
      flushed.all (fun f => decide (ptr.offset > f)) = true) := by
    intro h
    have := (hwait h.1).2
    rw [h.2] at this
    cases this
  have h4 : ¬ (env.check_asserts = true ∧
      ¬ env.varstr_size (load (log_data_sz env ptr) ptr) < log_data_sz env ptr) :=
    fun h => h.2 hsize
  have h5 : ¬ (env.check_asserts = true ∧
      env.asi_type (fat_ptr.make ptr.offset
        (env.encode_size_aligned
          (log_data_sz env ptr + env.sizeof_object + env.sizeof_dbtuple))
        env.ASI_LOG_FLAG).flags ≠ env.ASI_LOG) :=
    fun h => h.2 (hclsn h.1)
  unfold object.create_tuple_object_from_log
  rw [if_neg h1]
  simp only [if_neg h2, if_neg h3]
  cases lm with
  | some l =>
    simp only [log_source] at hsrc
    injection hsrc with hsrc
    subst hsrc
    simp only [if_neg h4, strip_varstr, if_pos hfit, if_neg h5, dbtuple.new]
  | none =>
    simp only [log_source] at hsrc
    subst hsrc
    simp only [if_neg h4, strip_varstr, if_pos hfit, if_neg h5, dbtuple.new]

/-- C18. For a logged record made of a `varstr` header declaring inner length
`n`, then `n` payload bytes, then padding up to the size class,
`create_tuple_object(ptr, nxt, epoch, lm)` yields an object whose tuple has
payload length `n` and whose first `n` payload bytes are the `n` bytes that
followed the header, in order. -/
theorem C18_inner_length_and_stripped_payload (env : layout) (ptr nxt : fat_ptr) (epoch : Nat)
    (lm logmgr : Option (Nat → fat_ptr → List Nat)) (is_backup_srv : Bool)
    (flushed : List Nat) (blk : block) (load : Nat → fat_ptr → List Nat)
    (header body padding : List Nat)
    (hreach : object.reaches_length_check env ptr logmgr is_backup_srv flushed)
    (hsrc : log_source lm logmgr = some load)
    (hclsn : env.check_asserts = true → env.asi_type env.ASI_LOG_FLAG = env.ASI_LOG)
    (hrec : load (log_data_sz env ptr) ptr = header ++ body ++ padding)
    (hlen : (header ++ body ++ padding).length = log_data_sz env ptr)
    (hhdr : header.length = env.sizeof_varstr) (hpos : 0 < env.sizeof_varstr)
    (hdecl : env.varstr_size (header ++ body ++ padding) = body.length) :
    ∃ r, object.create_tuple_object_from_log env ptr nxt epoch lm logmgr is_backup_srv
          flushed blk = Ret.ok r ∧
      r.obj.tuple.size = body.length ∧ r.obj.tuple.payload.take body.length = body := by
  have hsz : env.varstr_size (load (log_data_sz env ptr) ptr) = body.length := by
    rw [hrec]; exact hdecl
  have htot : header.length + body.length + padding.length = log_data_sz env ptr := by
    rw [← hlen]; simp only [List.length_append]
  have hfit : env.sizeof_varstr + env.varstr_size (load (log_data_sz env ptr) ptr) ≤
      log_data_sz env ptr := by
    rw [hsz]; omega
  have hsize : env.varstr_size (load (log_data_sz env ptr) ptr) < log_data_sz env ptr := by
    rw [hsz]; omega
  refine ⟨_, create_from_log_eq env ptr nxt epoch lm logmgr is_backup_srv flushed blk load
    hreach hsrc hfit hsize hclsn, ?_, ?_⟩
  · exact hsz
  · simp only [hsz]
    rw [hrec, ← hhdr, List.append_assoc, List.drop_left, List.take_left, List.take_left]

theorem C18_inner_length_and_stripped_payload_witness :
    ∃ r, object.create_tuple_object_from_log sample_layout ⟨100, 1, 1⟩ NULL_PTR 7
          (some sample_log) none false [] ⟨8192, 0⟩ = Ret.ok r ∧
      r.obj.tuple.size = ([10, 11, 12, 13, 14] : List Nat).length ∧
      r.obj.tuple.payload.take ([10, 11, 12, 13, 14] : List Nat).length =
        [10, 11, 12, 13, 14] :=
  C18_inner_length_and_stripped_payload sample_layout ⟨100, 1, 1⟩ NULL_PTR 7
    (some sample_log) none false [] ⟨8192, 0⟩ sample_log
    [5, 0, 0, 0, 0, 0, 0, 0] [10, 11, 12, 13, 14] [0, 0, 0]
    ⟨by decide, by decide⟩ rfl (by decide) (by decide) (by decide) (by decide) (by decide)
    (by decide)

/-- C19 (as stated, refuted). A record whose inner length equals `data_sz`
(16 here), so does not exceed it, fails the length assertion. -/
theorem C19_inner_length_equal_to_data_sz_fails :
    sample_layout.varstr_size (sample_log_full 16 ⟨100, 1, 1⟩) ≤
        log_data_sz sample_layout ⟨100, 1, 1⟩ ∧
      object.create_tuple_object_from_log sample_layout ⟨100, 1, 1⟩ NULL_PTR 7
          (some sample_log_full) none false [] ⟨8192, 0⟩ = Ret.failed Check.length := by
  decide

/-- C19 (amended). With `ASSERT` compiled in, `create_tuple_object` from a log
reference fails its length assertion exactly when the decoded inner length is
at least `data_sz`; every record whose inner length is strictly below
`data_sz` passes that assertion. -/
theorem C19_length_assertion_fails_iff_not_below_data_sz (env : layout) (ptr nxt : fat_ptr)
    (epoch : Nat) (lm logmgr : Option (Nat → fat_ptr → List Nat)) (is_backup_srv : Bool)
    (flushed : List Nat) (blk : block) (load : Nat → fat_ptr → List Nat)
    (hassert : env.check_asserts = true)
    (hreach : object.reaches_length_check env ptr logmgr is_backup_srv flushed)
    (hsrc : log_source lm logmgr = some load) :
    object.create_tuple_object_from_log env ptr nxt epoch lm logmgr is_backup_srv flushed blk
        = Ret.failed Check.length ↔
      log_data_sz env ptr ≤ env.varstr_size (load (log_data_sz env ptr) ptr) := by
  obtain ⟨hlog, hwait⟩ := hreach
  have h1 : ¬ (env.check_asserts = true ∧ env.asi_type ptr.flags ≠ env.ASI_LOG) :=
    fun h => h.2 (hlog h.1)
  have h2 : ¬ (is_backup_srv = true ∧ logmgr.isNone = true) := by
    intro h
    have := (hwait h.1).1
    rw [h.2] at this
    cases this
  have h3 : ¬ (is_backup_srv = true ∧
      flushed.all (fun f => decide (ptr.offset > f)) = true) := by
    intro h
    have := (hwait h.1).2
    rw [h.2] at this
    cases this
  have hl : lm = some load ∨ (lm = none ∧ logmgr = some load) := by
    cases lm with
    | some l =>
      left
      simpa [log_source] using hsrc
    | none =>
      right
      exact ⟨rfl, by simpa [log_source] using hsrc⟩
  unfold object.create_tuple_object_from_log
  rw [if_neg h1]
  simp only [if_neg h2, if_neg h3]
  by_cases hlt : env.varstr_size (load (log_data_sz env ptr) ptr) < log_data_sz env ptr
  · have hnot : ¬ (env.check_asserts = true ∧
        ¬ env.varstr_size (load (log_data_sz env ptr) ptr) < log_data_sz env ptr) :=
      fun h => h.2 hlt
    constructor
    · intro h
      exfalso
      rcases hl with h0 | ⟨h0, h0a⟩
      · subst h0
        simp only [if_neg hnot] at h
        split at h
        · cases h
        · split_ifs at h
          cases h
      · subst h0 h0a
        simp only [if_neg hnot] at h
        split at h
        · cases h
        · split_ifs at h
          cases h
    · intro h; omega
  · have hyes : env.check_asserts = true ∧
        ¬ env.varstr_size (load (log_data_sz env ptr) ptr) < log_data_sz env ptr :=
      ⟨hassert, hlt⟩
    refine ⟨fun _ => by omega, fun _ => ?_⟩
    rcases hl with h0 | ⟨h0, h0a⟩
    · subst h0
      simp only [if_pos hyes]
    · subst h0 h0a
      simp only [if_pos hyes]

theorem C19_length_assertion_fails_iff_not_below_data_sz_witness :
    object.create_tuple_object_from_log sample_layout ⟨100, 1, 1⟩ NULL_PTR 7
        (some sample_log) none false [] ⟨8192, 0⟩ = Ret.failed Check.length ↔
      log_data_sz sample_layout ⟨100, 1, 1⟩ ≤
        sample_layout.varstr_size (sample_log (log_data_sz sample_layout ⟨100, 1, 1⟩)
          ⟨100, 1, 1⟩) :=
  C19_length_assertion_fails_iff_not_below_data_sz sample_layout ⟨100, 1, 1⟩ NULL_PTR 7
    (some sample_log) none false [] ⟨8192, 0⟩ sample_log rfl ⟨by decide, by decide⟩ rfl

/-- C20. For a LOG-tagged reference with offset `o` whose size class decodes to
`data_sz`, the object built from the log has commit stamp `(o,
encode_size_aligned(data_sz + sizeof(object) + sizeof(dbtuple)),
ASI_LOG_FLAG)`, and the returned reference carries the same size code with
flag bits 0 (in memory). -/
theorem C20_commit_stamp_and_returned_reference (env : layout) (ptr nxt : fat_ptr)
    (epoch : Nat) (lm logmgr : Option (Nat → fat_ptr → List Nat)) (is_backup_srv : Bool)
    (flushed : List Nat) (blk : block) (load : Nat → fat_ptr → List Nat)
    (hreach : object.reaches_length_check env ptr logmgr is_backup_srv flushed)
    (hsrc : log_source lm logmgr = some load)
    (hfit : env.sizeof_varstr + env.varstr_size (load (log_data_sz env ptr) ptr) ≤
      log_data_sz env ptr)
    (hsize : env.varstr_size (load (log_data_sz env ptr) ptr) < log_data_sz env ptr)
    (hclsn : env.check_asserts = true → env.asi_type env.ASI_LOG_FLAG = env.ASI_LOG) :
    ∃ r, object.create_tuple_object_from_log env ptr nxt epoch lm logmgr is_backup_srv
          flushed blk = Ret.ok r ∧
      r.obj._clsn = ⟨ptr.offset,
        env.encode_size_aligned (log_data_sz env ptr + env.sizeof_object + env.sizeof_dbtuple),
        env.ASI_LOG_FLAG⟩ ∧
      r.ret.offset = blk.addr ∧ r.ret.size_code = r.obj._clsn.size_code ∧ r.ret.flags = 0 :=
  ⟨_, create_from_log_eq env ptr nxt epoch lm logmgr is_backup_srv flushed blk load
    hreach hsrc hfit hsize hclsn, rfl, rfl, rfl, rfl⟩

theorem C20_commit_stamp_and_returned_reference_witness :
    ∃ r, object.create_tuple_object_from_log sample_layout ⟨100, 1, 1⟩ NULL_PTR 7
          none (some sample_log) true [50, 120] ⟨8192, 0⟩ = Ret.ok r ∧
      r.obj._clsn = ⟨(⟨100, 1, 1⟩ : fat_ptr).offset,
        sample_layout.encode_size_aligned (log_data_sz sample_layout ⟨100, 1, 1⟩ +
          sample_layout.sizeof_object + sample_layout.sizeof_dbtuple),
        sample_layout.ASI_LOG_FLAG⟩ ∧
      r.ret.offset = (⟨8192, 0⟩ : block).addr ∧ r.ret.size_code = r.obj._clsn.size_code ∧
      r.ret.flags = 0 :=
  C20_commit_stamp_and_returned_reference sample_layout ⟨100, 1, 1⟩ NULL_PTR 7
    none (some sample_log) true [50, 120] ⟨8192, 0⟩ sample_log
    ⟨by decide, by decide⟩ rfl (by decide) (by decide) (by decide)

theorem from_log_alloc_epoch_zero (env : layout) (ptr nxt : fat_ptr) (epoch : Nat)
    (lm logmgr : Option (Nat → fat_ptr → List Nat)) (is_backup_srv : Bool)
    (flushed : List Nat) (blk : block) (r : Created)
    (h : object.create_tuple_object_from_log env ptr nxt epoch lm logmgr is_backup_srv
      flushed blk = Ret.ok r) : r.alloc_epoch = 0 := by
  unfold object.create_tuple_object_from_log at h
  simp only at h
  split_ifs at h
  all_goals
    split at h
    all_goals first
      | cases h
      | (split_ifs at h
         all_goals
           split at h
           all_goals first
             | (cases h; rfl)
             | cases h)

theorem value_alloc_epoch (env : layout) (tuple_value : Option varstr) (do_write : Bool)
    (epoch : Nat) (blk : block) (r : Created)
    (h : object.create_tuple_object env tuple_value do_write epoch blk = Ret.ok r) :
    r.alloc_epoch = epoch := by
  unfold object.create_tuple_object at h
  simp only at h
  split_ifs at h
  all_goals (injection h with h; subst h; rfl)

/-- C21. `create_tuple_object` from a log reference passes the literal epoch 0
to `MM::allocate`, whatever its epoch argument: every call that returns has
requested its block at epoch 0, and a call with a LOG-tagged reference and a
record that fits does return; with epoch 7 the allocator sees 0.  The value
overload passes the caller's epoch. -/
theorem C21_log_overload_passes_epoch_zero_to_allocator :
    (∀ (env : layout) (ptr nxt : fat_ptr) (epoch : Nat)
        (lm logmgr : Option (Nat → fat_ptr → List Nat)) (is_backup_srv : Bool)
        (flushed : List Nat) (blk : block) (r : Created),
        object.create_tuple_object_from_log env ptr nxt epoch lm logmgr is_backup_srv
          flushed blk = Ret.ok r → r.alloc_epoch = 0) ∧
    (∀ (env : layout) (ptr nxt : fat_ptr) (epoch : Nat)
        (lm logmgr : Option (Nat → fat_ptr → List Nat)) (is_backup_srv : Bool)
        (flushed : List Nat) (blk : block) (load : Nat → fat_ptr → List Nat),
        object.reaches_length_check env ptr logmgr is_backup_srv flushed →
        log_source lm logmgr = some load →
        env.sizeof_varstr + env.varstr_size (load (log_data_sz env ptr) ptr) ≤
          log_data_sz env ptr →
        env.varstr_size (load (log_data_sz env ptr) ptr) < log_data_sz env ptr →
        (env.check_asserts = true → env.asi_type env.ASI_LOG_FLAG = env.ASI_LOG) →
        ∃ r, object.create_tuple_object_from_log env ptr nxt epoch lm logmgr is_backup_srv
              flushed blk = Ret.ok r ∧
          r.alloc_epoch = 0 ∧
          r.alloc_sz = log_data_sz env ptr + env.sizeof_object + env.sizeof_dbtuple) ∧
    (∃ r, object.create_tuple_object_from_log sample_layout ⟨100, 1, 1⟩ NULL_PTR 7
          (some sample_log) none false [] ⟨8192, 0⟩ = Ret.ok r ∧
      r.alloc_epoch = 0 ∧ r.alloc_epoch ≠ 7) ∧
    (∀ (env : layout) (tuple_value : Option varstr) (do_write : Bool) (epoch : Nat)
        (blk : block) (r : Created),
        object.create_tuple_object env tuple_value do_write epoch blk = Ret.ok r →
        r.alloc_epoch = epoch) ∧
    (∃ r, object.create_tuple_object sample_layout none false 7 ⟨8192, 0⟩ = Ret.ok r ∧
      r.alloc_epoch = 7) :=
  ⟨from_log_alloc_epoch_zero,
    fun env ptr nxt epoch lm logmgr is_backup_srv flushed blk load hreach hsrc hfit hsize
        hclsn =>
      ⟨_, create_from_log_eq env ptr nxt epoch lm logmgr is_backup_srv flushed blk load
        hreach hsrc hfit hsize hclsn, rfl, rfl⟩,
    ⟨_, create_from_log_eq sample_layout ⟨100, 1, 1⟩ NULL_PTR 7 (some sample_log) none false
      [] ⟨8192, 0⟩ sample_log ⟨by decide, by decide⟩ rfl (by decide) (by decide) (by decide),
      rfl, by decide⟩,
    value_alloc_epoch,
    ⟨_, create_tuple_object_eq sample_layout none false 7 ⟨8192, 0⟩ (by decide), rfl⟩⟩

theorem reuse_check_fails_iff (env : layout) (tuple_value : Option varstr) (do_write : Bool)
    (epoch : Nat) (blk : block) (hassert : env.check_asserts = true) :
    object.create_tuple_object env tuple_value do_write epoch blk =
        Ret.failed Check.reuse_epoch ↔
      ¬ blk.prev_epoch ≤ (epoch + 2 ^ 64 - 4) % 2 ^ 64 := by
  unfold object.create_tuple_object
  simp only [hassert, true_and]
  constructor
  · intro h
    by_contra hle
    rw [if_neg (not_not.mpr hle)] at h
    split_ifs at h <;> cases h
  · intro h
    rw [if_pos h]

theorem wrapped_epoch_minus_four (epoch : Nat) (h4 : 4 ≤ epoch) (h64 : epoch < 2 ^ 64) :
    (epoch + 2 ^ 64 - 4) % 2 ^ 64 = epoch - 4 := by
  have : epoch + 2 ^ 64 - 4 = (epoch - 4) + 2 ^ 64 := by omega
  rw [this, Nat.add_mod_right]
  exact Nat.mod_eq_of_lt (by omega)

theorem wrapped_epoch_below_four (epoch : Nat) (h4 : epoch < 4) :
    (epoch + 2 ^ 64 - 4) % 2 ^ 64 = 2 ^ 64 - 4 + epoch := by
  have : epoch + 2 ^ 64 - 4 = 2 ^ 64 - 4 + epoch := by omega
  rw [this]
  exact Nat.mod_eq_of_lt (by omega)

/-- C22 (as stated, refuted). With `ASSERT` compiled in, at epoch 2 a block
whose previous allocation epoch is 0 passes the reuse check and the object is
returned, although `0 + 4 <= 2` is false; so does a block whose previous epoch
is 1.  The unsigned `epoch - 4` is `2 ^ 64 - 2` there. -/
theorem C22_check_passes_at_epoch_2_without_margin :
    sample_layout.check_asserts = true ∧ ¬ (0 + 4 ≤ 2) ∧
      (∃ r, object.create_tuple_object sample_layout none false 2 ⟨8192, 0⟩ = Ret.ok r) ∧
      (∃ r, object.create_tuple_object sample_layout none false 2 ⟨8192, 1⟩ = Ret.ok r) ∧
      (2 + 2 ^ 64 - 4) % 2 ^ 64 = 2 ^ 64 - 2 :=
  ⟨rfl, by decide,
    ⟨_, create_tuple_object_eq sample_layout none false 2 ⟨8192, 0⟩ (by decide)⟩,
    ⟨_, create_tuple_object_eq sample_layout none false 2 ⟨8192, 1⟩ (by decide)⟩,
    by decide⟩

/-- C22 (amended). With `ASSERT` compiled in, for every 64-bit epoch from 4
on the reuse check of `create_tuple_object(value, do_write, epoch)` fails
exactly when the block's previous epoch `p` has `p + 4 > epoch`, so it passes
only if `p + 4 <= epoch`.  For an epoch below 4 the unsigned `epoch - 4` wraps
to `2 ^ 64 - 4 + epoch`: the check fails exactly when `p` exceeds that value,
and passes for every `p` up to it. -/
theorem C22_reuse_check_against_wrapped_epoch (env : layout) (tuple_value : Option varstr)
    (do_write : Bool) (epoch : Nat) (blk : block) (hassert : env.check_asserts = true)
    (h64 : epoch < 2 ^ 64) :
    (4 ≤ epoch →
      (object.create_tuple_object env tuple_value do_write epoch blk =
          Ret.failed Check.reuse_epoch ↔ ¬ blk.prev_epoch + 4 ≤ epoch) ∧
      ∀ r, object.create_tuple_object env tuple_value do_write epoch blk = Ret.ok r →
        blk.prev_epoch + 4 ≤ epoch) ∧
    (epoch < 4 →
      (object.create_tuple_object env tuple_value do_write epoch blk =
          Ret.failed Check.reuse_epoch ↔ ¬ blk.prev_epoch ≤ 2 ^ 64 - 4 + epoch)) := by
  have hiff := reuse_check_fails_iff env tuple_value do_write epoch blk hassert
  constructor
  · intro h4
    rw [wrapped_epoch_minus_four epoch h4 h64] at hiff
    have hfail : object.create_tuple_object env tuple_value do_write epoch blk =
        Ret.failed Check.reuse_epoch ↔ ¬ blk.prev_epoch + 4 ≤ epoch := by
      rw [hiff]; omega
    refine ⟨hfail, ?_⟩
    intro r hr
    by_contra hnot
    rw [hfail.mpr hnot] at hr
    cases hr
  · intro h4
    rw [wrapped_epoch_below_four epoch h4] at hiff
    exact hiff

theorem C22_reuse_check_against_wrapped_epoch_witness :
    (4 ≤ 10 →
      (object.create_tuple_object sample_layout none false 10 ⟨8192, 7⟩ =
          Ret.failed Check.reuse_epoch ↔ ¬ (⟨8192, 7⟩ : block).prev_epoch + 4 ≤ 10) ∧
      ∀ r, object.create_tuple_object sample_layout none false 10 ⟨8192, 7⟩ = Ret.ok r →
        (⟨8192, 7⟩ : block).prev_epoch + 4 ≤ 10) ∧
    (10 < 4 →
      (object.create_tuple_object sample_layout none false 10 ⟨8192, 7⟩ =
          Ret.failed Check.reuse_epoch ↔
        ¬ (⟨8192, 7⟩ : block).prev_epoch ≤ 2 ^ 64 - 4 + 10)) :=
  C22_reuse_check_against_wrapped_epoch sample_layout none false 10 ⟨8192, 7⟩ rfl (by decide)

/-- C28. A record can pass the length check `inner_length < data_sz` while the
source range of the prefix-stripping move runs past the loaded bytes: with an
8-byte header and 16 loaded bytes, a declared inner length of 15 passes (15 <
16) but the move reads bytes 8 to 22, and the call is undefined. -/
theorem C28_length_check_does_not_bound_source_range :
    sample_layout.varstr_size (sample_log_long 16 ⟨100, 1, 1⟩) <
        log_data_sz sample_layout ⟨100, 1, 1⟩ ∧
      ¬ (sample_layout.sizeof_varstr + sample_layout.varstr_size
          (sample_log_long 16 ⟨100, 1, 1⟩) ≤ log_data_sz sample_layout ⟨100, 1, 1⟩) ∧
      (sample_log_long 16 ⟨100, 1, 1⟩).length = log_data_sz sample_layout ⟨100, 1, 1⟩ ∧
      object.create_tuple_object_from_log sample_layout ⟨100, 1, 1⟩ NULL_PTR 7
          (some sample_log_long) none false [] ⟨8192, 0⟩ = Ret.undefined := by
  decide

/-- C23. For every byte length `L` that fits the size-class table, decoding
the size code that encodes `L` gives a size that is at least `L` and strictly
less than `L` plus the alignment granularity. -/
theorem C23_size_class_round_trip (granularity classes L code : Nat) (hg : 0 < granularity)
    (hfit : encode_size_aligned granularity classes L = some code) :
    L ≤ decode_size_aligned granularity code ∧
      decode_size_aligned granularity code < L + granularity := by
  unfold encode_size_aligned at hfit
  split_ifs at hfit
  injection hfit with hcode
  subst hcode
  unfold decode_size_aligned
  have hdiv := Nat.div_add_mod (L + granularity - 1) granularity
  have hmod := Nat.mod_lt (L + granularity - 1) hg
  have hcomm : granularity * ((L + granularity - 1) / granularity) =
      (L + granularity - 1) / granularity * granularity := Nat.mul_comm _ _
  constructor <;> omega

theorem C23_size_class_round_trip_witness :
    100 ≤ decode_size_aligned 16 7 ∧ decode_size_aligned 16 7 < 100 + 16 :=
  C23_size_class_round_trip 16 255 100 7 (by decide) (by decide)

end obj

/-! ## Theorems: TPC-C helpers -/

namespace tpcc

theorem NewOrderIdHolder_eq (NumWarehouses warehouse district : Nat)
    (hw1 : 1 ≤ warehouse) (hw2 : warehouse ≤ NumWarehouses) (hd1 : 1 ≤ district)
    (hd2 : district ≤ 10) (hfit : NumWarehouses * 10 ≤ 2 ^ 32) :
    NewOrderIdHolder NumWarehouses warehouse district =
      Res.ok ((warehouse - 1) * 10 + (district - 1)) := by
  unfold NewOrderIdHolder NumDistrictsPerWarehouse
  rw [if_neg (by simp; omega), if_neg (by simp; omega)]
  have e1 : (warehouse + 2 ^ 32 - 1) % 2 ^ 32 = warehouse - 1 := by
    have : warehouse + 2 ^ 32 - 1 = (warehouse - 1) + 2 ^ 32 := by omega
    rw [this, Nat.add_mod_right]
    exact Nat.mod_eq_of_lt (by omega)
  have e2 : (district + 2 ^ 32 - 1) % 2 ^ 32 = district - 1 := by
    have : district + 2 ^ 32 - 1 = (district - 1) + 2 ^ 32 := by omega
    rw [this, Nat.add_mod_right]
    exact Nat.mod_eq_of_lt (by omega)
  rw [e1, e2]
  have hlt : (warehouse - 1) * 10 + (district - 1) < 2 ^ 32 := by omega
  rw [Nat.mod_eq_of_lt (by omega : (warehouse - 1) * 10 + (district - 1) < 2 ^ 64),
    Nat.mod_eq_of_lt hlt]

/-- C30 (as stated, refuted). With 429496731 warehouses the valid pairs
(warehouse 1, district 5) and (warehouse 429496731, district 1) get the same
index 4: the index is stored in an `unsigned` and `429496730 * 10` exceeds
`2 ^ 32`. -/
theorem C30_index_collides_when_it_exceeds_unsigned :
    NewOrderIdHolder 429496731 1 5 = Res.ok 4 ∧
      NewOrderIdHolder 429496731 429496731 1 = Res.ok 4 ∧
      ((1 : Nat), (5 : Nat)) ≠ (429496731, 1) := by
  decide

/-- C30 (amended). When `NumWarehouses() * 10` does not exceed `2 ^ 32`, for
every warehouse in `1..NumWarehouses()` and district in `1..10` the index
computed by `NewOrderIdHolder` is `(warehouse - 1) * 10 + (district - 1)`, is
less than `NumWarehouses() * 10`, and two valid pairs with the same index are
equal. -/
theorem C30_index_in_range_and_injective (NumWarehouses w1 d1 w2 d2 : Nat)
    (hfit : NumWarehouses * 10 ≤ 2 ^ 32)
    (hw1 : 1 ≤ w1 ∧ w1 ≤ NumWarehouses) (hd1 : 1 ≤ d1 ∧ d1 ≤ 10)
    (hw2 : 1 ≤ w2 ∧ w2 ≤ NumWarehouses) (hd2 : 1 ≤ d2 ∧ d2 ≤ 10) :
    NewOrderIdHolder NumWarehouses w1 d1 = Res.ok ((w1 - 1) * 10 + (d1 - 1)) ∧
      (w1 - 1) * 10 + (d1 - 1) < NumWarehouses * 10 ∧
      (NewOrderIdHolder NumWarehouses w1 d1 = NewOrderIdHolder NumWarehouses w2 d2 →
        w1 = w2 ∧ d1 = d2) := by
  have e1 := NewOrderIdHolder_eq NumWarehouses w1 d1 hw1.1 hw1.2 hd1.1 hd1.2 hfit
  have e2 := NewOrderIdHolder_eq NumWarehouses w2 d2 hw2.1 hw2.2 hd2.1 hd2.2 hfit
  refine ⟨e1, by omega, ?_⟩
  intro h
  rw [e1, e2] at h
  injection h with h
  omega

theorem C30_index_in_range_and_injective_witness :
    NewOrderIdHolder 4 2 7 = Res.ok ((2 - 1) * 10 + (7 - 1)) ∧
      (2 - 1) * 10 + (7 - 1) < 4 * 10 ∧
      (NewOrderIdHolder 4 2 7 = NewOrderIdHolder 4 3 1 → 2 = 3 ∧ 7 = 1) :=
  C30_index_in_range_and_injective 4 2 7 3 1 (by decide) (by decide) (by decide) (by decide)
    (by decide)

theorem lor_of_nonneg (a b : Int) (ha : 0 ≤ a) (hb : 0 ≤ b) :
    Int.lor a b = ((a.toNat ||| b.toNat : Nat) : Int) := by
  obtain ⟨m, rfl⟩ := Int.eq_ofNat_of_zero_le ha
  obtain ⟨n, rfl⟩ := Int.eq_ofNat_of_zero_le hb
  rfl

theorem lor_nonneg (a b : Int) (ha : 0 ≤ a) (hb : 0 ≤ b) : 0 ≤ Int.lor a b := by
  rw [lor_of_nonneg a b ha hb]
  exact Int.ofNat_nonneg _

theorem lor_lt_two_pow (a b : Int) (k : Nat) (ha : 0 ≤ a) (hb : 0 ≤ b)
    (hak : a < 2 ^ k) (hbk : b < 2 ^ k) : Int.lor a b < 2 ^ k := by
  rw [lor_of_nonneg a b ha hb]
  have h1 : a.toNat < 2 ^ k := by
    have := Int.toNat_of_nonneg ha
    zify
    rw [this]
    exact_mod_cast hak
  have h2 : b.toNat < 2 ^ k := by
    have := Int.toNat_of_nonneg hb
    zify
    rw [this]
    exact_mod_cast hbk
  exact_mod_cast Nat.or_lt_two_pow h1 h2

theorem RandomNumber_ok (d min max : Int) (h1 : min ≤ d) (h2 : d ≤ max)
    (hspan : fits_int (max - min) ∧ fits_int (max - min + 1)) (hd : fits_int d) :
    RandomNumber d min max = Res.ok d := by
  unfold RandomNumber CheckBetweenInclusive
  rw [if_neg (by simp only [not_or, not_not]; exact hspan), if_neg (not_not.mpr hd),
    if_neg (by simp; exact h1), if_neg (by simp; exact h2)]

theorem NonUniformRandom_in_range (a b A C min max : Int)
    (ha : 0 ≤ a ∧ a ≤ A) (hC : 0 ≤ C) (hmin : 0 ≤ min) (hb : min ≤ b ∧ b ≤ max)
    (hA : A + 1 < 2 ^ 31) (hsum : Int.lor a b + C < 2 ^ 31) (hmax : max < 2 ^ 31)
    (hrange : max - min + 1 < 2 ^ 31) :
    ∃ v, NonUniformRandom a b A C min max = Res.ok v ∧ min ≤ v ∧ v ≤ max := by
  have hb0 : 0 ≤ b := le_trans hmin hb.1
  have hor := lor_nonneg a b ha.1 hb0
  have hm : 0 < max - min + 1 := by omega
  have hmod : Int.tmod (Int.lor a b + C) (max - min + 1) =
      (Int.lor a b + C) % (max - min + 1) :=
    Int.tmod_eq_emod (by omega) (by omega)
  have h1 := Int.emod_nonneg (Int.lor a b + C) (by omega : max - min + 1 ≠ 0)
  have h2 := Int.emod_lt_of_pos (Int.lor a b + C) hm
  have hRa : RandomNumber a 0 A = Res.ok a :=
    RandomNumber_ok a 0 A ha.1 ha.2 (by simp only [fits_int]; omega)
      (by simp only [fits_int]; omega)
  have hRb : RandomNumber b min max = Res.ok b :=
    RandomNumber_ok b min max hb.1 hb.2 (by simp only [fits_int]; omega)
      (by simp only [fits_int]; omega)
  refine ⟨Int.tmod (Int.lor a b + C) (max - min + 1) + min, ?_, by omega, by omega⟩
  unfold NonUniformRandom
  rw [hRa, hRb]
  simp only
  rw [if_neg, if_neg, if_neg, if_neg]
  · simp only [fits_int, not_not]; omega
  · omega
  · simp only [fits_int]; omega
  · simp only [fits_int, not_not]; omega

theorem GetCustomerId_ok (a b : Int) (ha : 0 ≤ a ∧ a ≤ 1023) (hb : 1 ≤ b ∧ b ≤ 3000) :
    ∃ v, GetCustomerId a b = Res.ok v ∧ 1 ≤ v ∧ v ≤ 3000 := by
  have hor := lor_lt_two_pow a b 12 ha.1 (by omega) (by norm_num; omega) (by norm_num; omega)
  norm_num at hor
  obtain ⟨v, hv, h1, h2⟩ := NonUniformRandom_in_range a b 1023 259 1 3000 ha (by decide)
    (by decide) hb (by decide) (by norm_num; omega) (by decide) (by decide)
  refine ⟨v, ?_, h1, h2⟩
  unfold GetCustomerId NumCustomersPerDistrict
  simp only [Nat.cast_ofNat, hv, CheckBetweenInclusive]
  rw [if_neg (by simp; exact h1), if_neg (by simp; exact h2)]

theorem GetItemId_ok (flag u a b : Int) (hu : 1 ≤ u ∧ u ≤ 100000) (ha : 0 ≤ a ∧ a ≤ 8191)
    (hb : 1 ≤ b ∧ b ≤ 100000) :
    ∃ v, GetItemId flag u a b = Res.ok v ∧ 1 ≤ v ∧ v ≤ 100000 := by
  unfold GetItemId NumItems
  by_cases hf : flag ≠ 0
  · refine ⟨u, ?_, hu.1, hu.2⟩
    simp only [Nat.cast_ofNat, if_pos hf]
    rw [RandomNumber_ok u 1 100000 hu.1 hu.2 (by decide) (by simp only [fits_int]; omega)]
    simp only [CheckBetweenInclusive]
    rw [if_neg (by simp; exact hu.1), if_neg (by simp; exact hu.2)]
  · have hor := lor_lt_two_pow a b 17 ha.1 (by omega) (by norm_num; omega)
      (by norm_num; omega)
    norm_num at hor
    obtain ⟨v, hv, h1, h2⟩ := NonUniformRandom_in_range a b 8191 7911 1 100000 ha
      (by decide) (by decide) hb (by decide) (by norm_num; omega) (by decide) (by decide)
    refine ⟨v, ?_, h1, h2⟩
    simp only [Nat.cast_ofNat, if_neg hf, hv, CheckBetweenInclusive]
    rw [if_neg (by simp; exact h1), if_neg (by simp; exact h2)]

/-- C26 (as stated, refuted). With `A = 0`, `C = 2147483647`, `min = 1`, `max =
3000` and the draws `a = 0`, `b = 1`, all within the stated ranges,
`(a | b) + C` overflows `int` and `NonUniformRandom` has no defined result.
Likewise with `A = 2147483647`, `C = 0`: the first `RandomNumber` call forms
`A - 0 + 1` in `int`, which overflows. -/
theorem C26_sum_overflows_int :
    ((0 : Int) ≥ 0 ∧ (2147483647 : Int) ≥ 0 ∧ (0 : Int) ≤ 1 ∧ (1 : Int) ≤ 3000 ∧
      NonUniformRandom 0 1 0 2147483647 1 3000 = Res.undefined) ∧
    NonUniformRandom 0 1 2147483647 0 1 3000 = Res.undefined := by
  decide

/-- C26 (amended). For `A ≥ 0`, `C ≥ 0`, `0 ≤ min ≤ max` and draws `a` in `[0,
A]`, `b` in `[min, max]` for which `A + 1`, `max - min + 1` and `(a | b) + C`
are representable as `int`, `NonUniformRandom` returns and its result lies in
`[min, max]`; hence the `CheckBetweenInclusive` assertions of `GetCustomerId`
(1..3000) and `GetItemId` (1..100000) never fail. -/
theorem C26_NonUniformRandom_in_range :
    (∀ a b A C min max : Int, 0 ≤ a ∧ a ≤ A → 0 ≤ C → 0 ≤ min → min ≤ b ∧ b ≤ max →
      A + 1 < 2 ^ 31 → Int.lor a b + C < 2 ^ 31 → max < 2 ^ 31 → max - min + 1 < 2 ^ 31 →
      ∃ v, NonUniformRandom a b A C min max = Res.ok v ∧ min ≤ v ∧ v ≤ max) ∧
    (∀ a b : Int, 0 ≤ a ∧ a ≤ 1023 → 1 ≤ b ∧ b ≤ 3000 →
      ∃ v, GetCustomerId a b = Res.ok v ∧ 1 ≤ v ∧ v ≤ 3000) ∧
    (∀ flag u a b : Int, 1 ≤ u ∧ u ≤ 100000 → 0 ≤ a ∧ a ≤ 8191 → 1 ≤ b ∧ b ≤ 100000 →
      ∃ v, GetItemId flag u a b = Res.ok v ∧ 1 ≤ v ∧ v ≤ 100000) :=
  ⟨NonUniformRandom_in_range, GetCustomerId_ok, GetItemId_ok⟩

theorem C26_NonUniformRandom_in_range_witness :
    ∃ v, NonUniformRandom 1000 2999 1023 259 1 3000 = Res.ok v ∧ 1 ≤ v ∧ v ≤ 3000 :=
  C26_NonUniformRandom_in_range.1 1000 2999 1023 259 1 3000 (by decide) (by decide)
    (by decide) (by decide) (by decide) (by decide) (by decide) (by decide)

theorem memcpy_at_after (front rest src : List Nat) (pos : Nat) (hpos : front.length = pos)
    (hroom : src.length ≤ rest.length) :
    memcpy_at (front ++ rest) pos src = some ((front ++ src) ++ rest.drop src.length) := by
  unfold memcpy_at
  rw [if_pos (by simp only [List.length_append]; omega)]
  subst hpos
  rw [List.take_left, List.drop_append]

theorem name_token_eq (NameTokens : List (List Nat)) (k : Nat) (hk : k < NameTokens.length) :
    name_token NameTokens (k : Int) = Res.ok (NameTokens.getD k []) := by
  unfold name_token
  rw [if_pos ⟨Int.ofNat_nonneg k, by simpa using hk⟩]
  simp

theorem tdiv_cast (n d : Nat) : Int.tdiv (n : Int) (d : Int) = ((n / d : Nat) : Int) := by
  rw [Int.tdiv_eq_ediv (Int.ofNat_nonneg n) (Int.ofNat_nonneg d)]
  norm_cast

theorem tmod_cast (n d : Nat) : Int.tmod (n : Int) (d : Int) = ((n % d : Nat) : Int) := by
  rw [Int.tmod_eq_emod (Int.ofNat_nonneg n) (Int.ofNat_nonneg d)]
  norm_cast

theorem GetCustomerLastName_buf_eq (NameTokens : List (List Nat)) (buf : List Nat) (n : Nat)
    (hn : n ≤ 999) (hten : NameTokens.length = 10)
    (hroom : (NameTokens.getD (n / 100) [] ++ NameTokens.getD (n / 10 % 10) [] ++
      NameTokens.getD (n % 10) []).length ≤ buf.length) :
    GetCustomerLastName_buf NameTokens buf (n : Int) =
      Res.ok (NameTokens.getD (n / 100) [] ++ NameTokens.getD (n / 10 % 10) [] ++
          NameTokens.getD (n % 10) [] ++
          buf.drop (NameTokens.getD (n / 100) [] ++ NameTokens.getD (n / 10 % 10) [] ++
            NameTokens.getD (n % 10) []).length,
        (NameTokens.getD (n / 100) [] ++ NameTokens.getD (n / 10 % 10) [] ++
          NameTokens.getD (n % 10) []).length) := by
  have e0 : Int.tdiv (n : Int) 100 = ((n / 100 : Nat) : Int) := tdiv_cast n 100
  have e1 : Int.tmod (Int.tdiv (n : Int) 10) 10 = ((n / 10 % 10 : Nat) : Int) := by
    have := tdiv_cast n 10
    simp only [Nat.cast_ofNat] at this
    rw [this]
    exact tmod_cast (n / 10) 10
  have e2 : Int.tmod (n : Int) 10 = ((n % 10 : Nat) : Int) := tmod_cast n 10
  simp only [List.length_append] at hroom
  unfold GetCustomerLastName_buf
  rw [e0, e1, e2, name_token_eq NameTokens (n / 100) (by omega),
    name_token_eq NameTokens (n / 10 % 10) (by omega),
    name_token_eq NameTokens (n % 10) (by omega)]
  simp only
  have m1 := memcpy_at_after [] buf (NameTokens.getD (n / 100) []) 0 rfl (by omega)
  simp only [List.nil_append] at m1
  rw [m1]
  simp only
  have m2 := memcpy_at_after (NameTokens.getD (n / 100) [])
    (buf.drop (NameTokens.getD (n / 100) []).length) (NameTokens.getD (n / 10 % 10) [])
    (NameTokens.getD (n / 100) []).length rfl (by rw [List.length_drop]; omega)
  rw [m2]
  simp only
  have m3 := memcpy_at_after (NameTokens.getD (n / 100) [] ++ NameTokens.getD (n / 10 % 10) [])
    ((buf.drop (NameTokens.getD (n / 100) []).length).drop
      (NameTokens.getD (n / 10 % 10) []).length) (NameTokens.getD (n % 10) [])
    ((NameTokens.getD (n / 100) []).length + (NameTokens.getD (n / 10 % 10) []).length)
    (by simp) (by simp only [List.length_drop]; omega)
  rw [m3]
  simp only [List.drop_drop, List.length_append]

theorem token_length_le (NameTokens : List (List Nat)) (k : Nat)
    (htok : ∀ t ∈ NameTokens, t.length ≤ 5) : (NameTokens.getD k []).length ≤ 5 := by
  by_cases hk : k < NameTokens.length
  · rw [List.getD_eq_getElem NameTokens [] hk]
    exact htok _ (List.getElem_mem hk)
  · rw [List.getD_eq_default NameTokens [] (by omega)]
    simp

/-- C27. For every `num` in `0..999` the three token indices `num / 100`,
`(num / 10) % 10` and `num % 10` are in `0..9`; with ten tokens of at most 5
characters each, the buffer overload of `GetCustomerLastName` writes the
concatenation of the three tokens at the start of the buffer and returns its
length, the string overload returns that concatenation, and it fits in
`CustomerLastNameMaxSize = 15` bytes. -/
theorem C27_GetCustomerLastName_concatenates_tokens (NameTokens : List (List Nat))
    (buf : List Nat) (n : Nat) (hn : n ≤ 999) (hten : NameTokens.length = 10)
    (htok : ∀ t ∈ NameTokens, t.length ≤ 5) (hbuf : CustomerLastNameMaxSize ≤ buf.length) :
    n / 100 ≤ 9 ∧ n / 10 % 10 ≤ 9 ∧ n % 10 ≤ 9 ∧
    GetCustomerLastName_buf NameTokens buf (n : Int) =
      Res.ok (NameTokens.getD (n / 100) [] ++ NameTokens.getD (n / 10 % 10) [] ++
          NameTokens.getD (n % 10) [] ++
          buf.drop (NameTokens.getD (n / 100) [] ++ NameTokens.getD (n / 10 % 10) [] ++
            NameTokens.getD (n % 10) []).length,
        (NameTokens.getD (n / 100) [] ++ NameTokens.getD (n / 10 % 10) [] ++
          NameTokens.getD (n % 10) []).length) ∧
    GetCustomerLastName NameTokens (n : Int) =
      Res.ok (NameTokens.getD (n / 100) [] ++ NameTokens.getD (n / 10 % 10) [] ++
        NameTokens.getD (n % 10) []) ∧
    (NameTokens.getD (n / 100) [] ++ NameTokens.getD (n / 10 % 10) [] ++
      NameTokens.getD (n % 10) []).length ≤ CustomerLastNameMaxSize := by
  have h0 := token_length_le NameTokens (n / 100) htok
  have h1 := token_length_le NameTokens (n / 10 % 10) htok
  have h2 := token_length_le NameTokens (n % 10) htok
  have hlen : (NameTokens.getD (n / 100) [] ++ NameTokens.getD (n / 10 % 10) [] ++
      NameTokens.getD (n % 10) []).length ≤ CustomerLastNameMaxSize := by
    simp only [List.length_append, CustomerLastNameMaxSize]; omega
  refine ⟨by omega, by omega, by omega,
    GetCustomerLastName_buf_eq NameTokens buf n hn hten (le_trans hlen hbuf), ?_, hlen⟩
  unfold GetCustomerLastName
  rw [GetCustomerLastName_buf_eq NameTokens (List.replicate CustomerLastNameMaxSize 0) n hn hten
    (by simpa using hlen)]
  simp only
  rw [List.take_left]
  have hsub : ∀ l r : List Nat, l.length - (l ++ r).length = 0 := by
    intro l r
    simp
  rw [hsub]
  simp

theorem C27_GetCustomerLastName_concatenates_tokens_witness :
    371 / 100 ≤ 9 ∧ 371 / 10 % 10 ≤ 9 ∧ 371 % 10 ≤ 9 ∧
    GetCustomerLastName_buf sample_NameTokens (List.replicate 20 7) ((371 : Nat) : Int) =
      Res.ok (sample_NameTokens.getD (371 / 100) [] ++
          sample_NameTokens.getD (371 / 10 % 10) [] ++ sample_NameTokens.getD (371 % 10) [] ++
          (List.replicate 20 7).drop (sample_NameTokens.getD (371 / 100) [] ++
            sample_NameTokens.getD (371 / 10 % 10) [] ++
            sample_NameTokens.getD (371 % 10) []).length,
        (sample_NameTokens.getD (371 / 100) [] ++ sample_NameTokens.getD (371 / 10 % 10) [] ++
          sample_NameTokens.getD (371 % 10) []).length) ∧
    GetCustomerLastName sample_NameTokens ((371 : Nat) : Int) =
      Res.ok (sample_NameTokens.getD (371 / 100) [] ++
        sample_NameTokens.getD (371 / 10 % 10) [] ++ sample_NameTokens.getD (371 % 10) []) ∧
    (sample_NameTokens.getD (371 / 100) [] ++ sample_NameTokens.getD (371 / 10 % 10) [] ++
      sample_NameTokens.getD (371 % 10) []).length ≤ CustomerLastNameMaxSize :=
  C27_GetCustomerLastName_concatenates_tokens sample_NameTokens (List.replicate 20 7) 371
    (by decide) (by decide) (by decide) (by decide)

/-- A vector without repetition whose values are in `1..n` has at most `n`
entries. -/
theorem c_ids_length_le (n : Nat) (v : List Nat) (hnd : v.Nodup)
    (hr : ∀ x ∈ v, 1 ≤ x ∧ x ≤ n) : v.length ≤ n := by
  have hsub : v ⊆ List.range' 1 n := by
    intro x hx
    rw [List.mem_range'_1]
    have := hr x hx
    omega
  have := (List.subperm_of_subset hnd hsub).length_le
  simpa using this

theorem c_ids_loop_sound (n : Nat) :
    ∀ (src s v out : List Nat), (∀ x, x ∈ s ↔ x ∈ v) → v.Nodup →
      (∀ x ∈ v, 1 ≤ x ∧ x ≤ n) → c_ids_loop n src s v = some out →
      out.length = n ∧ out.Nodup ∧ ∀ x ∈ out, 1 ≤ x ∧ x ≤ n := by
  intro src
  induction src with
  | nil =>
    intro s v out _ hnd hr h
    unfold c_ids_loop at h
    split_ifs at h with hne
    injection h with h
    subst h
    exact ⟨not_not.mp hne, hnd, hr⟩
  | cons r rest ih =>
    intro s v out hsv hnd hr h
    unfold c_ids_loop at h
    split_ifs at h with hne hmem
    · exact ih s v out hsv hnd hr h
    · have hn : 0 < n := by
        rcases Nat.eq_zero_or_pos n with h0 | h0
        · exfalso
          apply hne
          have := c_ids_length_le n v hnd hr
          omega
        · exact h0
      have hx : r % n < n := Nat.mod_lt r hn
      refine ih ((r % n + 1) :: s) (v ++ [r % n + 1]) out ?_ ?_ ?_ h
      · intro x
        simp only [List.mem_cons, List.mem_append, List.mem_singleton, List.not_mem_nil,
          or_false]
        rw [hsv x]
        exact or_comm
      · rw [List.nodup_append]
        refine ⟨hnd, List.nodup_singleton _, ?_⟩
        intro a ha hb
        simp only [List.mem_singleton] at hb
        subst hb
        exact hmem ((hsv _).mpr ha)
      · intro x hxm
        rcases List.mem_append.mp hxm with h1 | h1
        · exact hr x h1
        · simp only [List.mem_singleton] at h1
          subst h1
          omega
    · injection h with h
      subst h
      exact ⟨not_not.mp hne, hnd, hr⟩

theorem c_ids_loop_exits (n : Nat) :
    ∀ (src s v : List Nat), (∀ x, x ∈ s ↔ x ∈ v) → v.Nodup →
      (∀ x ∈ v, 1 ≤ x ∧ x ≤ n) →
      (∀ k, k < n → k + 1 ∈ v ∨ ∃ r ∈ src, r % n = k) →
      ∃ out, c_ids_loop n src s v = some out := by
  intro src
  induction src with
  | nil =>
    intro s v _ hnd hr hcov
    have hle := c_ids_length_le n v hnd hr
    have hsub : List.range' 1 n ⊆ v := by
      intro x hx
      rw [List.mem_range'_1] at hx
      rcases hcov (x - 1) (by omega) with h1 | ⟨r, hr1, _⟩
      · have : x - 1 + 1 = x := by omega
        rw [this] at h1
        exact h1
      · cases hr1
    have hge := (List.subperm_of_subset (List.nodup_range' 1 n) hsub).length_le
    simp only [List.length_range'] at hge
    refine ⟨v, ?_⟩
    unfold c_ids_loop
    rw [if_neg (by omega)]
  | cons r rest ih =>
    intro s v hsv hnd hr hcov
    unfold c_ids_loop
    by_cases hne : v.length ≠ n
    · rw [if_pos hne]
      have hn : 0 < n := by
        rcases Nat.eq_zero_or_pos n with h0 | h0
        · exfalso
          apply hne
          have := c_ids_length_le n v hnd hr
          omega
        · exact h0
      have hx : r % n < n := Nat.mod_lt r hn
      by_cases hmem : (r % n + 1) ∈ s
      · rw [if_pos hmem]
        apply ih s v hsv hnd hr
        intro k hk
        rcases hcov k hk with h1 | ⟨r1, hr1, hk1⟩
        · left; exact h1
        · rcases List.mem_cons.mp hr1 with h2 | h2
          · left
            subst h2
            rw [← hk1]
            exact (hsv _).mp hmem
          · right; exact ⟨r1, h2, hk1⟩
      · rw [if_neg hmem]
        apply ih ((r % n + 1) :: s) (v ++ [r % n + 1])
        · intro x
          simp only [List.mem_cons, List.mem_append, List.mem_singleton, List.not_mem_nil,
            or_false]
          rw [hsv x]
          exact or_comm
        · rw [List.nodup_append]
          refine ⟨hnd, List.nodup_singleton _, ?_⟩
          intro a ha hb
          simp only [List.mem_singleton] at hb
          subst hb
          exact hmem ((hsv _).mpr ha)
        · intro x hxm
          rcases List.mem_append.mp hxm with h1 | h1
          · exact hr x h1
          · simp only [List.mem_singleton] at h1
            subst h1
            omega
        · intro k hk
          rcases hcov k hk with h1 | ⟨r1, hr1, hk1⟩
          · left; exact List.mem_append_left _ h1
          · rcases List.mem_cons.mp hr1 with h2 | h2
            · left
              subst h2
              rw [← hk1]
              exact List.mem_append_right _ (List.mem_singleton_self _)
            · right; exact ⟨r1, h2, hk1⟩
    · rw [if_neg hne]
      exact ⟨v, rfl⟩

theorem order_customer_ids_eq (n : Nat) (c_ids : List Nat) (hlen : c_ids.length = n) :
    order_customer_ids n c_ids = c_ids := by
  unfold order_customer_ids
  apply List.ext_getElem
  · simp [hlen]
  · intro i h1 h2
    simp [List.getElem?_eq_getElem h2]

/-- C29. Whenever the customer-id generation loop for a district exits (with
`n = NumCustomersPerDistrict() = 3000`), `c_ids` is a permutation of `1..n`;
so the `o_c_id` of every generated order is in `1..n` and every customer of
the district is the `o_c_id` of exactly one order.  The loop does exit once
`r.next()` has produced every residue modulo `n`. -/
theorem C29_c_ids_is_a_permutation (n : Nat) (src : List Nat) :
    (∀ c_ids, c_ids_loop n src [] [] = some c_ids →
      c_ids.Perm (List.range' 1 n) ∧
      (∀ o ∈ order_customer_ids n c_ids, 1 ≤ o ∧ o ≤ n) ∧
      (∀ k, 1 ≤ k → k ≤ n → (order_customer_ids n c_ids).count k = 1)) ∧
    ((∀ k, k < n → ∃ r ∈ src, r % n = k) → ∃ c_ids, c_ids_loop n src [] [] = some c_ids) := by
  constructor
  · intro c_ids h
    obtain ⟨hlen, hnd, hr⟩ := c_ids_loop_sound n src [] [] c_ids (by simp) List.nodup_nil
      (by simp) h
    have hsub : c_ids ⊆ List.range' 1 n := by
      intro x hx
      rw [List.mem_range'_1]
      have := hr x hx
      omega
    have hperm : c_ids.Perm (List.range' 1 n) :=
      (List.subperm_of_subset hnd hsub).perm_of_length_le (by simp [hlen])
    rw [order_customer_ids_eq n c_ids hlen]
    refine ⟨hperm, hr, ?_⟩
    intro k hk1 hkn
    apply List.count_eq_one_of_mem hnd
    apply hperm.symm.subset
    rw [List.mem_range'_1]
    omega
  · intro hcov
    exact c_ids_loop_exits n src [] [] (by simp) List.nodup_nil (by simp)
      (fun k hk => Or.inr (hcov k hk))

theorem C29_c_ids_is_a_permutation_witness :
    ([3, 1, 2] : List Nat).Perm (List.range' 1 3) ∧
      (∀ o ∈ order_customer_ids 3 [3, 1, 2], 1 ≤ o ∧ o ≤ 3) ∧
      (∀ k, 1 ≤ k → k ≤ 3 → (order_customer_ids 3 [3, 1, 2]).count k = 1) :=
  (C29_c_ids_is_a_permutation 3 [5, 3, 4, 3, 7, 9]).1 [3, 1, 2] (by decide)

end tpcc
